import Mathlib

/-!
Verification of the Swiss-tournament core of `xchess-desktop`
(`internal/tournament/tournament.go` together with the data model of
`internal/model`).

Shallow embedding conventions:
* Go `float64` scores are modelled by `Rat`.  Every score the program
  manipulates is an integer multiple of `1/2` (win `1.0`, draw `0.5`,
  loss `0.0`, bye value, and finite sums of those), all of which are
  represented exactly by `float64`, and on which `float64` addition,
  subtraction and comparison are exact; so `Rat` is a faithful model.
* Go `string` is `String`, `ColorHistory` is a `List Char` (the Go code
  only appends the ASCII bytes `W` / `B` and inspects the last one).
* The `PlayersData` / `RoundsData` / `EventsData` JSON blobs and the
  `GetPlayers/SetPlayers/GetRounds/SetRounds/GetEvents/SetEvents`
  (de)serialization round-trips are modelled as plain fields and the
  identity on them; serialization errors cannot occur on the values the
  program builds.
* `uuid` identifiers and timestamps of events are environment effects;
  an `Event` here keeps only the fields the logic reads back
  (`Type`, `RoundNumber`, `TableNumber`).  `Player.Rating` and the
  tournament metadata that no modelled operation reads are omitted.
* Fallible Go functions (returning `error`) become `Except String`.
* Round and table numbers are Go `int`s that the program only ever
  keeps at values `≥ 0`; they are modelled as `Nat`.
-/

namespace Swiss

/-- Player record, from `internal/model` (`Player`). -/
structure Player where
  id : String
  name : String
  score : Rat
  opponentIDs : List String
  buchholz : Rat
  colorHistory : List Char
  hasBye : Bool
  club : String
deriving DecidableEq, Repr

/-- Match record, from `internal/model` (`Match`). -/
structure Match where
  roundNumber : Nat
  tableNumber : Nat
  playerA_ID : String
  playerB_ID : String
  whiteID : String
  blackID : String
  result : String
  scoreA : Rat
  scoreB : Rat
deriving DecidableEq, Repr

/-- Round record, from `internal/model` (`Round`). -/
structure Round where
  roundNumber : Nat
  Matches : List Match
  isComplete : Bool
deriving DecidableEq, Repr

/-- Audit event, from `internal/model` (`Event`); uuid/timestamp/details
are environment effects and are omitted. -/
structure Event where
  type : String
  roundNumber : Nat
  tableNumber : Nat
deriving DecidableEq, Repr

/-- Tournament aggregate, from `internal/model` (`Tournament`).  The JSON
blob fields are modelled as the lists they (de)serialize to. -/
structure Tournament where
  title : String
  description : String
  status : String
  players : List Player
  rounds : List Round
  events : List Event
  currentRound : Nat
  totalPlayers : Nat
  byeScore : Rat
  pairingSystem : String
deriving DecidableEq, Repr

instance {ε α : Type} [DecidableEq ε] [DecidableEq α] : DecidableEq (Except ε α) :=
  fun a b =>
    match a, b with
    | .ok x, .ok y =>
      if h : x = y then isTrue (by rw [h]) else isFalse (by simp [h])
    | .error x, .error y =>
      if h : x = y then isTrue (by rw [h]) else isFalse (by simp [h])
    | .ok _, .error _ => isFalse (by simp)
    | .error _, .ok _ => isFalse (by simp)

/-- `const ByePlayerID = "BYE"` (tournament.go). -/
def ByePlayerID : String := "BYE"

/-! ### Aggregate recomputation (`RecomputePlayersFromRounds`) -/

/-- `ensureOpponent` (tournament.go): append `oid` to the opponent list
only if it is not already present. -/
def ensureOpponent (p : Player) (oid : String) : Player :=
  if p.opponentIDs.contains oid then p
  else { p with opponentIDs := p.opponentIDs ++ [oid] }

/-- Update the last player with the given id, or leave the list unchanged
when no player has it.  This mirrors the Go pattern
`index := make(map[string]*Player); for i := range players { index[p.ID] = &players[i] }`:
with duplicated ids the map points at the last slice entry, and a lookup
of an absent id is skipped via the `ok` flag. -/
def updateById : List Player → String → (Player → Player) → List Player
  | [], _, _ => []
  | p :: ps, i, f =>
    if ps.any (fun q => q.id = i) then p :: updateById ps i f
    else if p.id = i then f p :: ps
    else p :: ps

/-- Colour-history contribution of match `m` to player `p`
(`if m.WhiteID == p.ID { ... += "W" } else if m.BlackID == p.ID { ... += "B" }`). -/
def colorMark (m : Match) (p : Player) : Player :=
  if m.whiteID = p.id then { p with colorHistory := p.colorHistory ++ ['W'] }
  else if m.blackID = p.id then { p with colorHistory := p.colorHistory ++ ['B'] }
  else p

/-- One recorded match applied to the player list, following the body of
the match loop of `RecomputePlayersFromRounds` (score updates, then
opponents/colour history for a real pairing, or the bye flag). -/
def applyMatch (ps : List Player) (m : Match) : List Player :=
  let ps1 := updateById ps m.playerA_ID (fun a => { a with score := a.score + m.scoreA })
  let ps2 :=
    if m.playerB_ID = ByePlayerID then ps1
    else updateById ps1 m.playerB_ID (fun b => { b with score := b.score + m.scoreB })
  if m.playerB_ID = ByePlayerID then
    updateById ps2 m.playerA_ID (fun a => { a with hasBye := true })
  else
    let ps3 := updateById ps2 m.playerA_ID (fun a => colorMark m (ensureOpponent a m.playerB_ID))
    updateById ps3 m.playerB_ID (fun b => colorMark m (ensureOpponent b m.playerA_ID))

/-- Reset of the aggregate fields at the top of `RecomputePlayersFromRounds`. -/
def resetAggregates (p : Player) : Player :=
  { p with score := 0, colorHistory := [], hasBye := false, opponentIDs := [] }

/-- Core of `RecomputePlayersFromRounds`: rebuild every player aggregate
from scratch out of the matches with a recorded result in rounds
`≤ currentRound`. -/
def recomputePlayers (players : List Player) (rounds : List Round) (currentRound : Nat) :
    List Player :=
  rounds.foldl
    (fun ps r =>
      if currentRound < r.roundNumber then ps
      else r.Matches.foldl (fun ps2 m => if m.result = "" then ps2 else applyMatch ps2 m) ps)
    (players.map resetAggregates)

/-- `RecomputePlayersFromRounds` (tournament.go). -/
def recomputePlayersFromRounds (t : Tournament) : Tournament :=
  { t with players := recomputePlayers t.players t.rounds t.currentRound }

/-! ### Standings (`UpdateStandings`, `GetStandings`) -/

/-- The `scoreIndex` map of `UpdateStandings`; built left to right, so a
later entry with the same id overwrites an earlier one, and an absent id
yields the zero value. -/
def scoreIndexOf (players : List Player) : String → Rat :=
  players.foldl (fun acc p => fun x => if x = p.id then p.score else acc x) (fun _ => 0)

/-- `UpdateStandings` (tournament.go): recompute Buchholz for every player
as the sum of `scoreIndex[oid]` over its opponent ids, skipping the BYE
sentinel. -/
def updateStandings (t : Tournament) : Tournament :=
  let scoreIndex := scoreIndexOf t.players
  { t with players :=
      t.players.map (fun p =>
        { p with buchholz :=
            (p.opponentIDs.foldl
              (fun sum oid => if oid = ByePlayerID then sum else sum + scoreIndex oid) 0) }) }

/-- The comparison closure of both `GetStandings` and the seed sort of
`GeneratePairings`: score descending, then Buchholz descending, then
name ascending. -/
def standingsLessB (a b : Player) : Bool :=
  if a.score ≠ b.score then decide (a.score > b.score)
  else if a.buchholz ≠ b.buchholz then decide (a.buchholz > b.buchholz)
  else decide (a.name < b.name)

/-- The non-strict order induced by `standingsLessB`; a stable sort with
respect to it produces exactly the output of Go `sort.SliceStable` with
that less function (a stable sort is determined by the order). -/
def standingsLe (a b : Player) : Prop := standingsLessB b a = false

instance : DecidableRel standingsLe := fun a b => by
  unfold standingsLe; infer_instance

/-- The stable standings sort shared by `GetStandings` and the seed order
of `GeneratePairings`. -/
def sortStandings (players : List Player) : List Player :=
  List.insertionSort standingsLe players

/-- `GetStandings` (tournament.go): refresh Buchholz, then sort.  The Go
function persists the refreshed players into the tournament (through
`UpdateStandings`) and returns the sorted list; the pair returns both. -/
def getStandingsT (t : Tournament) : Tournament × List Player :=
  let t2 := updateStandings t
  (t2, sortStandings t2.players)

/-! ### Locating and mutating one match (`RecordMatchResult`, `ClearMatchResult`) -/

/-- Does round `r` carry number `rn` and contain a match at table `tbl`?
Both Go functions scan the rounds in order and settle on the first round
that matches the number and contains the table. -/
def roundHasMatch (r : Round) (rn tbl : Nat) : Bool :=
  r.roundNumber = rn && r.Matches.any (fun m => m.tableNumber = tbl)

/-- The match the Go locating loops of `RecordMatchResult` and
`ClearMatchResult` end up pointing at, if any. -/
def locateMatch (rounds : List Round) (rn tbl : Nat) : Option Match :=
  (rounds.find? (fun r => roundHasMatch r rn tbl)).bind
    (fun r => r.Matches.find? (fun m => m.tableNumber = tbl))

/-- Apply `f` to the first match at table `tbl`. -/
def updMatchFirst : List Match → Nat → (Match → Match) → List Match
  | [], _, _ => []
  | m :: ms, tbl, f =>
    if m.tableNumber = tbl then f m :: ms else m :: updMatchFirst ms tbl f

/-- The round after its match at `tbl` was mutated through `f` and the
completion flag recomputed (`allComplete` loop shared by
`RecordMatchResult` and `ClearMatchResult`). -/
def updRound (r : Round) (tbl : Nat) (f : Match → Match) : Round :=
  { r with Matches := updMatchFirst r.Matches tbl f,
           isComplete := ((updMatchFirst r.Matches tbl f).all (fun m => m.result ≠ "")) }

/-- Mutate the located match through `f` and recompute the completion flag
of its round. -/
def setMatch : List Round → Nat → Nat → (Match → Match) → List Round
  | [], _, _, _ => []
  | r :: rs, rn, tbl, f =>
    if roundHasMatch r rn tbl then updRound r tbl f :: rs
    else r :: setMatch rs rn tbl f

/-- The scores `RecordMatchResult` writes for result code `res`
(1/0, 0/1, 0.5/0.5, byeValue/0); `byeVal` is the tournament bye score
after its `ByeScore == 0` fixup. -/
def writeResult (res : String) (byeVal : Rat) (m : Match) : Match :=
  if res = "A_WIN" then { m with result := "A_WIN", scoreA := 1, scoreB := 0 }
  else if res = "B_WIN" then { m with result := "B_WIN", scoreA := 0, scoreB := 1 }
  else if res = "DRAW" then { m with result := "DRAW", scoreA := mkRat 1 2, scoreB := mkRat 1 2 }
  else { m with result := "BYE_A", scoreA := byeVal, scoreB := 0 }

/-- The success path of `RecordMatchResult`: fix up a zero `ByeScore` on
`BYE_A`, write the result into the located match, recompute the round
flag, rebuild the player aggregates, replace the audit event for this
slot, and refresh the standings — in the order the Go code does. -/
def recordApply (t : Tournament) (rn tbl : Nat) (res : String) : Tournament :=
  let t1 := if res = "BYE_A" ∧ t.byeScore = 0 then { t with byeScore := 1 } else t
  let t2 := { t1 with rounds := (setMatch t1.rounds rn tbl (writeResult res t1.byeScore)) }
  let t3 := recomputePlayersFromRounds t2
  let kept := t3.events.filter
    (fun e => ¬ (e.type = "MATCH_RESULT_RECORDED" ∧ e.roundNumber = rn ∧ e.tableNumber = tbl))
  updateStandings { t3 with events := kept ++ [⟨"MATCH_RESULT_RECORDED", rn, tbl⟩] }

/-- `RecordMatchResult` (tournament.go). -/
def recordMatchResult (t : Tournament) (rn tbl : Nat) (res : String) :
    Except String Tournament :=
  match locateMatch t.rounds rn tbl with
  | none => .error "match not found"
  | some m =>
    if res = "BYE_A" ∧ m.playerB_ID ≠ ByePlayerID then
      .error "invalid result BYE_A for non-bye match"
    else if res = "A_WIN" ∨ res = "B_WIN" ∨ res = "DRAW" ∨ res = "BYE_A" then
      .ok (recordApply t rn tbl res)
    else .error "unknown result"

/-- `ClearMatchResult` (tournament.go). -/
def clearMatchResult (t : Tournament) (rn tbl : Nat) : Except String Tournament :=
  match locateMatch t.rounds rn tbl with
  | none => .error "match not found"
  | some _ =>
    let t1 := { t with rounds :=
      (setMatch t.rounds rn tbl (fun m => { m with result := "", scoreA := 0, scoreB := 0 })) }
    .ok (updateStandings (recomputePlayersFromRounds t1))

/-- Clear every match of round `r` and force its flag to `false`
(`ClearAllResultsInRound` round body). -/
def clearRound (r : Round) : Round :=
  { r with
    Matches := r.Matches.map (fun m => { m with result := "", scoreA := 0, scoreB := 0 }),
    isComplete := false }

/-- Apply `clearRound` to the first round numbered `rn`. -/
def clearFirstRound : List Round → Nat → Option (List Round)
  | [], _ => none
  | r :: rs, rn =>
    if r.roundNumber = rn then some (clearRound r :: rs)
    else (clearFirstRound rs rn).map (fun rest => r :: rest)

/-- `ClearAllResultsInRound` (tournament.go). -/
def clearAllResultsInRound (t : Tournament) (rn : Nat) : Except String Tournament :=
  match clearFirstRound t.rounds rn with
  | none => .error "round not found"
  | some rounds =>
    .ok (updateStandings (recomputePlayersFromRounds { t with rounds := rounds }))

/-! ### Round reversion (`GoBackToPreviousRound`, `CancelCurrentRound`) -/

/-- The success path of `GoBackToPreviousRound`: decrement the round
pointer keeping all round data, rebuild aggregates and standings, log a
reversion event. -/
def goBackApply (t : Tournament) : Tournament :=
  let t1 := { t with currentRound := t.currentRound - 1 }
  let t2 := updateStandings (recomputePlayersFromRounds t1)
  { t2 with events := t2.events ++ [⟨"ROUND_REVERTED", t2.currentRound, 0⟩] }

/-- `GoBackToPreviousRound` (tournament.go). -/
def goBackToPreviousRound (t : Tournament) : Except String Tournament :=
  if t.currentRound ≤ 1 then
    .error "cannot go back: already at round 1 or no rounds exist"
  else if ¬ t.rounds.any (fun r => r.roundNumber = t.currentRound - 1) then
    .error "previous round not found"
  else
    .ok (goBackApply t)

/-- Split off the first round numbered `rn`, as the index scan plus
`append(rounds[:i], rounds[i+1:]...)` of `CancelCurrentRound` does. -/
def removeFirstRound : List Round → Nat → Option (Round × List Round)
  | [], _ => none
  | r :: rs, rn =>
    if r.roundNumber = rn then some (r, rs)
    else (removeFirstRound rs rn).map (fun pr => (pr.1, r :: pr.2))

/-- `CancelCurrentRound` (tournament.go). -/
def cancelCurrentRound (t : Tournament) : Except String Tournament :=
  if t.currentRound = 0 then
    .error "cannot cancel: no rounds to cancel"
  else
    match removeFirstRound t.rounds t.currentRound with
    | none => .error "current round not found in rounds data"
    | some (r, rest) =>
      if r.Matches.any (fun m => m.result ≠ "") then
        .error "cannot cancel round: matches have recorded results"
      else
        .ok { t with rounds := rest, currentRound := t.currentRound - 1,
                     events := t.events ++ [⟨"ROUND_CANCELLED", r.roundNumber, 0⟩] }

/-! ### Pairing engine (`SwissToolAdapter.GeneratePairings`, rounds ≥ 2) -/

/-- The local `abs` closure of `GeneratePairings`. -/
def fabs (x : Rat) : Rat := if x < 0 then -x else x

/-- `havePlayed` (tournament.go): has `b` already appeared in the opponent
history of `a`? -/
def havePlayed (a b : Player) : Bool := a.opponentIDs.contains b.id

/-- The comparison closure of `chooseBye`: score ascending, then Buchholz
ascending, then name ascending. -/
def byeLessB (a b : Player) : Bool :=
  if a.score ≠ b.score then decide (a.score < b.score)
  else if a.buchholz ≠ b.buchholz then decide (a.buchholz < b.buchholz)
  else decide (a.name < b.name)

/-- The non-strict order induced by `byeLessB` (stable sort order of the
bye-candidate sort). -/
def byeLe (a b : Player) : Prop := byeLessB b a = false

instance : DecidableRel byeLe := fun a b => by
  unfold byeLe; infer_instance

/-- `chooseBye` (tournament.go): stable-sort the candidates ascending and
return the first without a prior bye, or the absolute lowest if all have
had one; `none` on an empty list. -/
def chooseBye (candidates : List Player) : Option Player :=
  let sorted := List.insertionSort byeLe candidates
  match sorted.find? (fun p => ¬ p.hasBye) with
  | some p => some p
  | none => sorted.head?

/-- The `lastTable` map built from the matches of the previous round
(player id ↦ table number, `0` when absent, the Go map zero value);
entries are written in match order, player A then player B. -/
def tablesOfMatches (ms : List Match) : String → Nat :=
  ms.foldl
    (fun acc m =>
      let acc1 := fun x => if x = m.playerA_ID then m.tableNumber else acc x
      if m.playerB_ID = ByePlayerID then acc1
      else fun x => if x = m.playerB_ID then m.tableNumber else acc1 x)
    (fun _ => 0)

/-- The `lastTable` lookup of `GeneratePairings` for round `roundNumber`:
tables of the first stored round numbered `roundNumber - 1`, empty when
that round is absent. -/
def lastTableOf (rounds : List Round) (prevRound : Nat) : String → Nat :=
  match rounds.find? (fun r => r.roundNumber = prevRound) with
  | some r => tablesOfMatches r.Matches
  | none => fun _ => 0

/-- A pairing candidate entry (`cand` in tournament.go): the candidate
player together with the score difference and previous-table proximity
orders. -/
structure Cand where
  p : Player
  scoreDiff : Rat
  tableProx : Nat
deriving DecidableEq, Repr

/-- `1 << 30`, the worst-proximity sentinel used when either player has no
previous table. -/
def proxWorst : Nat := 2 ^ 30

/-- The candidate list built for the first unpaired player `a`: skip `a`
itself and used players, skip rematches, skip score gaps above `1.0`;
record score difference and previous-table proximity. -/
def candidatesFor (ps : List Player) (used : List String) (a : Player)
    (lastTable : String → Nat) : List Cand :=
  ps.filterMap (fun q =>
    if q.id = a.id ∨ used.contains q.id then none
    else if havePlayed a q then none
    else
      let diff := fabs (a.score - q.score)
      if 1 < diff then none
      else
        let aT := lastTable a.id
        let bT := lastTable q.id
        let prox := if 0 < aT ∧ 0 < bT then max aT bT - min aT bT else proxWorst
        some ⟨q, diff, prox⟩)

/-- The candidate comparison of `GeneratePairings`: score difference
ascending, then previous-table proximity ascending. -/
def candLessB (c d : Cand) : Bool :=
  if c.scoreDiff ≠ d.scoreDiff then decide (c.scoreDiff < d.scoreDiff)
  else decide (c.tableProx < d.tableProx)

/-- The non-strict order induced by `candLessB`. -/
def candLe (c d : Cand) : Prop := candLessB d c = false

instance : DecidableRel candLe := fun a b => by
  unfold candLe; infer_instance

/-- The non-bye match built when `a` is paired with `b` at `table`:
default colours `a` White / `b` Black, swapped when the last colour in
the history of `a` is White. -/
def mkPairMatch (rn table : Nat) (a b : Player) : Match :=
  let swap := a.colorHistory.getLast? = some 'W'
  { roundNumber := rn, tableNumber := table, playerA_ID := a.id, playerB_ID := b.id,
    whiteID := (if swap then b else a).id, blackID := (if swap then a else b).id,
    result := "", scoreA := 0, scoreB := 0 }

/-- The bye match built for player `bye` at `table`. -/
def mkByeMatch (rn table : Nat) (bye : Player) : Match :=
  { roundNumber := rn, tableNumber := table, playerA_ID := bye.id, playerB_ID := ByePlayerID,
    whiteID := bye.id, blackID := "", result := "", scoreA := 0, scoreB := 0 }

/-- First `some` produced by `f` along the list (the candidate loop of the
`backtrack` closure: try each candidate, return on the first success). -/
def firstSome (f : α → Option β) : List α → Option β
  | [] => none
  | x :: xs =>
    match f x with
    | some y => some y
    | none => firstSome f xs

/-- The `backtrack` closure of `GeneratePairings`.  The Go version shares
a `used` set, a match list and a bye flag across recursive calls and
undoes its tentative choices on failure; this version threads `used` and
the bye flag explicitly and returns the matches built from the current
level downwards.  `fuel` bounds the recursion depth: every recursive call
marks at least one previously unpaired player as used, so any depth above
the number of players is unreachable and the Go recursion always
terminates within it. -/
def pairSearch (rn : Nat) (ps : List Player) (lastTable : String → Nat) (allowBye : Bool) :
    Nat → List String → Bool → Nat → Option (List Match)
  | 0, _, _, _ => none
  | fuel + 1, used, byeAssigned, table =>
    match ps.find? (fun p => ¬ used.contains p.id) with
    | none => some []
    | some a =>
      let cands := List.insertionSort candLe (candidatesFor ps used a lastTable)
      match firstSome
          (fun c =>
            (pairSearch rn ps lastTable allowBye fuel (c.p.id :: a.id :: used) byeAssigned
                (table + 1)).map
              (fun ms => mkPairMatch rn table a c.p :: ms))
          cands with
      | some ms => some ms
      | none =>
        if allowBye ∧ byeAssigned = false then
          match chooseBye (ps.filter (fun p => ¬ used.contains p.id)) with
          | some bye =>
            (pairSearch rn ps lastTable allowBye fuel (bye.id :: used) true (table + 1)).map
              (fun ms => mkByeMatch rn table bye :: ms)
          | none => none
        else none

/-- The whole constrained search of `GeneratePairings` for a round ≥ 2:
seed-sort the players, build the previous-round table map, run the
backtracking search from an empty `used` set, no bye, table 1. -/
def swissSearch (t : Tournament) (players : List Player) (rn : Nat) : Option (List Match) :=
  let ps := sortStandings players
  let lastTable := if 1 < rn then lastTableOf t.rounds (rn - 1) else fun _ => 0
  pairSearch rn ps lastTable (ps.length % 2 = 1) (ps.length + 1) [] false 1

/-- Error text of a failed search (the `ConstraintUnsatisfiable` case). -/
def constraintUnsatisfiableMsg : String :=
  "unable to generate pairings: no rematches and max score difference 1.0 constraints cannot be satisfied"

/-- `SwissToolAdapter.GeneratePairings` (tournament.go).  Round 1 is
delegated to the external `swisstool` random-pairing utility, modelled as
the strategy parameter `roundOne` (spec §6 treats it as a pluggable
collaborator); every later round runs the constrained search. -/
def generatePairings (roundOne : List Player → Except String (List Match))
    (t : Tournament) (players : List Player) (rn : Nat) : Except String (List Match) :=
  if rn = 1 then roundOne players
  else
    match swissSearch t players rn with
    | some ms => .ok ms
    | none => .error constraintUnsatisfiableMsg

/-! ### Advancing (`AdvanceToNextRound`) -/

/-- The previous table-1 winner scanned by `AdvanceToNextRound`: in the
round numbered `CurrentRound`, the first match at table 1 anchors its
winner (`A_WIN`/`BYE_A` → player A, `B_WIN` → player B, anything else no
anchor). -/
def prevTable1Winner (t : Tournament) : String :=
  if 0 < t.currentRound then
    match t.rounds.find? (fun r => r.roundNumber = t.currentRound) with
    | some r =>
      match r.Matches.find? (fun m => m.tableNumber = 1) with
      | some m =>
        if m.result = "A_WIN" ∨ m.result = "BYE_A" then m.playerA_ID
        else if m.result = "B_WIN" then m.playerB_ID
        else ""
      | none => ""
    | none => ""
  else ""

/-- The standings rank map of `AdvanceToNextRound` (id ↦ index in the
standings order, `0` for an absent id — the Go map zero value). -/
def rankOf (standings : List Player) : String → Nat :=
  (standings.enum.foldl (fun acc pi => fun x => if x = pi.2.id then pi.1 else acc x)
    (fun _ => 0))

/-- `bestRank` closure: a bye match ranks past the end, otherwise the
better (smaller) rank of the two participants. -/
def bestRank (playerCount : Nat) (rank : String → Nat) (m : Match) : Nat :=
  if m.playerA_ID = ByePlayerID ∨ m.playerB_ID = ByePlayerID then playerCount + 1
  else min (rank m.playerA_ID) (rank m.playerB_ID)

/-- Does match `m` contain the (non-empty) anchor id? -/
def containsAnchor (m : Match) (anchor : String) : Bool :=
  anchor ≠ "" && (m.playerA_ID = anchor || m.playerB_ID = anchor)

/-- Is `m` a bye match (`hasBye` closure)? -/
def isByeMatch (m : Match) : Bool :=
  m.playerA_ID = ByePlayerID || m.playerB_ID = ByePlayerID

/-- The match comparison of the post-processing sort of
`AdvanceToNextRound`: anchor match first, bye matches last, the rest by
best standings rank. -/
def advLessB (playerCount : Nat) (rank : String → Nat) (anchor : String) (m1 m2 : Match) :
    Bool :=
  if containsAnchor m1 anchor ≠ containsAnchor m2 anchor then containsAnchor m1 anchor
  else if isByeMatch m1 ≠ isByeMatch m2 then ¬ isByeMatch m1
  else decide (bestRank playerCount rank m1 < bestRank playerCount rank m2)

/-- The non-strict order induced by `advLessB`. -/
def advLe (playerCount : Nat) (rank : String → Nat) (anchor : String) (m1 m2 : Match) : Prop :=
  advLessB playerCount rank anchor m2 m1 = false

instance (pc : Nat) (rank : String → Nat) (anchor : String) :
    DecidableRel (advLe pc rank anchor) := fun a b => by
  unfold advLe; infer_instance

/-- `AdvanceToNextRound` (tournament.go): guard on the completeness of the
current round, generate pairings for `CurrentRound + 1`, reorder them
(anchor first, byes last, then standings order), renumber tables 1..N,
append the new round and move the round pointer.  The `GetStandings` call
inside persists refreshed Buchholz values, which is kept here. -/
def advanceToNextRound
    (engine : Tournament → List Player → Nat → Except String (List Match))
    (t : Tournament) : Except String Tournament :=
  let players := t.players
  let guardFail : Bool :=
    decide (0 < t.currentRound) &&
      (match t.rounds.find? (fun r => r.roundNumber = t.currentRound) with
       | some r => ¬ r.isComplete
       | none => false)
  if guardFail then .error "cannot advance: current round is not complete"
  else
    let nextRoundNumber := t.currentRound + 1
    match engine t players nextRoundNumber with
    | .error e => .error e
    | .ok ms =>
      let anchor := prevTable1Winner t
      let t2 := updateStandings t
      let rank := rankOf (sortStandings t2.players)
      let sorted := List.insertionSort (advLe players.length rank anchor) ms
      let renumbered := sorted.enum.map (fun mi => { mi.2 with tableNumber := mi.1 + 1 })
      .ok { t2 with
              rounds := t2.rounds ++ [⟨nextRoundNumber, renumbered, false⟩],
              currentRound := nextRoundNumber,
              totalPlayers := players.length }

/-! ### Adding players (`AddPlayer`) -/

/-- `AddPlayer` (tournament.go); `newId` stands for the freshly generated
uuid string, an environment effect passed in explicitly. -/
def addPlayer (t : Tournament) (name club newId : String) :
    Except String (String × Tournament) :=
  if name.trim = "" then .error "player name is required"
  else if 0 < t.currentRound then
    .error "cannot add players after tournament has started"
  else
    let p : Player :=
      { id := newId, name := name, score := 0, opponentIDs := [], buchholz := 0,
        colorHistory := [], hasBye := false, club := club }
    let players := t.players ++ [p]
    .ok (newId, { t with players := players, totalPlayers := players.length })

/-! ### Helper lemmas about locating and updating matches -/

theorem updMatchFirst_tables (ms : List Match) (tbl : Nat) (f : Match → Match)
    (hf : ∀ m, (f m).tableNumber = m.tableNumber) :
    (updMatchFirst ms tbl f).map (fun m => m.tableNumber) = ms.map (fun m => m.tableNumber) := by
  induction ms with
  | nil => rfl
  | cons m ms ih =>
    by_cases hm : m.tableNumber = tbl
    · simp [updMatchFirst, hm, hf]
    · simp [updMatchFirst, hm, ih]

theorem find?_cons_pos {α : Type} (p : α → Bool) (a : α) (l : List α) (h : p a = true) :
    List.find? p (a :: l) = some a :=
  List.find?_cons_of_pos l h

theorem find?_cons_neg {α : Type} (p : α → Bool) (a : α) (l : List α) (h : p a = false) :
    List.find? p (a :: l) = List.find? p l :=
  List.find?_cons_of_neg l (by simp [h])

theorem any_table_congr (l1 l2 : List Match) (tbl : Nat)
    (h : l1.map (fun m => m.tableNumber) = l2.map (fun m => m.tableNumber)) :
    l1.any (fun m => m.tableNumber = tbl) = l2.any (fun m => m.tableNumber = tbl) := by
  induction l1 generalizing l2 with
  | nil =>
    cases l2 with
    | nil => rfl
    | cons b l2 => simp at h
  | cons a l1 ih =>
    cases l2 with
    | nil => simp at h
    | cons b l2 =>
      simp only [List.map_cons, List.cons.injEq] at h
      simp [List.any_cons, h.1, ih l2 h.2]

theorem roundHasMatch_setRound (r : Round) (ms : List Match) (flag : Bool) (rn tbl : Nat)
    (ht : ms.map (fun m => m.tableNumber) = r.Matches.map (fun m => m.tableNumber)) :
    roundHasMatch { r with Matches := ms, isComplete := flag } rn tbl
      = roundHasMatch r rn tbl := by
  simp [roundHasMatch, any_table_congr ms r.Matches tbl ht]

theorem find?_updMatchFirst (ms : List Match) (tbl : Nat) (f : Match → Match)
    (hf : ∀ m, (f m).tableNumber = m.tableNumber) (m : Match)
    (h : ms.find? (fun m => m.tableNumber = tbl) = some m) :
    (updMatchFirst ms tbl f).find? (fun m => m.tableNumber = tbl) = some (f m) := by
  induction ms with
  | nil => simp at h
  | cons m0 ms ih =>
    by_cases hm : m0.tableNumber = tbl
    · rw [List.find?_cons_of_pos _ (by simp [hm])] at h
      cases h
      simp only [updMatchFirst, if_pos hm]
      rw [List.find?_cons_of_pos _ (by simp [hf, hm])]
    · rw [List.find?_cons_of_neg _ (by simp [hm])] at h
      simp only [updMatchFirst, if_neg hm]
      rw [List.find?_cons_of_neg _ (by simp [hm])]
      exact ih h

theorem locateMatch_setMatch (R : List Round) (rn tbl : Nat) (f : Match → Match)
    (hf : ∀ m, (f m).tableNumber = m.tableNumber) (m : Match)
    (h : locateMatch R rn tbl = some m) :
    locateMatch (setMatch R rn tbl f) rn tbl = some (f m) := by
  induction R with
  | nil => simp [locateMatch] at h
  | cons r rs ih =>
    by_cases hr : roundHasMatch r rn tbl
    · unfold locateMatch at h
      rw [find?_cons_pos (fun x => roundHasMatch x rn tbl) r rs hr, Option.some_bind] at h
      have htbl := updMatchFirst_tables r.Matches tbl f hf
      have hr' : roundHasMatch (updRound r tbl f) rn tbl = true := by
        unfold updRound
        exact (roundHasMatch_setRound r _ _ rn tbl htbl).trans hr
      unfold setMatch
      rw [if_pos hr]
      unfold locateMatch
      rw [find?_cons_pos (fun x => roundHasMatch x rn tbl) _ rs hr', Option.some_bind]
      exact find?_updMatchFirst r.Matches tbl f hf m h
    · have hrf : roundHasMatch r rn tbl = false := by simpa using hr
      unfold locateMatch at h
      rw [find?_cons_neg (fun x => roundHasMatch x rn tbl) r rs hrf] at h
      unfold setMatch
      rw [if_neg hr]
      unfold locateMatch
      rw [find?_cons_neg (fun x => roundHasMatch x rn tbl) r (setMatch rs rn tbl f) hrf]
      exact ih h

theorem rounds_updateStandings (t : Tournament) : (updateStandings t).rounds = t.rounds := rfl

theorem rounds_recomputePlayersFromRounds (t : Tournament) :
    (recomputePlayersFromRounds t).rounds = t.rounds := rfl

theorem writeResult_tableNumber (res : String) (v : Rat) (m : Match) :
    (writeResult res v m).tableNumber = m.tableNumber := by
  simp only [writeResult]
  split_ifs <;> rfl

/-! ### Concrete scenario data, shared by several witnesses

`exT5`: five players after a recorded round 1 (`p1` beat `p2` at table 1,
`p3` beat `p4` at table 2, `p5` had the bye at table 3); aggregates are
exactly what the recomputation derives from that round.
`exT4`: four players who have all already played each other. -/

def mkPlayer (i n : String) (sc : Rat) (opps : List String) (bu : Rat) (ch : List Char)
    (hb : Bool) : Player :=
  { id := i, name := n, score := sc, opponentIDs := opps, buchholz := bu,
    colorHistory := ch, hasBye := hb, club := "" }

def exRound1 : Round :=
  { roundNumber := 1, isComplete := true, Matches :=
    [ { roundNumber := 1, tableNumber := 1, playerA_ID := "p1", playerB_ID := "p2",
        whiteID := "p1", blackID := "p2", result := "A_WIN", scoreA := 1, scoreB := 0 },
      { roundNumber := 1, tableNumber := 2, playerA_ID := "p3", playerB_ID := "p4",
        whiteID := "p3", blackID := "p4", result := "A_WIN", scoreA := 1, scoreB := 0 },
      { roundNumber := 1, tableNumber := 3, playerA_ID := "p5", playerB_ID := ByePlayerID,
        whiteID := "p5", blackID := "", result := "BYE_A", scoreA := 1, scoreB := 0 } ] }

def exPlayers5 : List Player :=
  [ mkPlayer "p1" "P1" 1 ["p2"] 0 ['W'] false,
    mkPlayer "p2" "P2" 0 ["p1"] 1 ['B'] false,
    mkPlayer "p3" "P3" 1 ["p4"] 0 ['W'] false,
    mkPlayer "p4" "P4" 0 ["p3"] 1 ['B'] false,
    mkPlayer "p5" "P5" 1 [] 0 [] true ]

def exT5 : Tournament :=
  { title := "T", description := "D", status := "ACTIVE", players := exPlayers5,
    rounds := [exRound1], events := [], currentRound := 1, totalPlayers := 5,
    byeScore := 1, pairingSystem := "SWISS" }

def exPlayers4 : List Player :=
  [ mkPlayer "a1" "A1" (mkRat 3 2) ["a2", "a3", "a4"] 0 ['W', 'B', 'W'] false,
    mkPlayer "a2" "A2" (mkRat 3 2) ["a1", "a4", "a3"] 0 ['B', 'W', 'B'] false,
    mkPlayer "a3" "A3" (mkRat 3 2) ["a4", "a1", "a2"] 0 ['W', 'B', 'W'] false,
    mkPlayer "a4" "A4" (mkRat 3 2) ["a3", "a2", "a1"] 0 ['B', 'W', 'B'] false ]

def exT4 : Tournament :=
  { title := "T", description := "D", status := "ACTIVE", players := exPlayers4,
    rounds := [], events := [], currentRound := 3, totalPlayers := 4,
    byeScore := 1, pairingSystem := "SWISS" }

/-- The external round-1 strategy used when a witness has to fix one; its
value never matters for rounds ≥ 2. -/
def exRoundOne : List Player → Except String (List Match) := fun _ => .error "external"

/-- Effective bye value used by a `RecordMatchResult` call on tournament
`t` (after the `ByeScore == 0` fixup). -/
def effByeScore (t : Tournament) (res : String) : Rat :=
  if res = "BYE_A" ∧ t.byeScore = 0 then 1 else t.byeScore

theorem recordApply_rounds (t : Tournament) (rn tbl : Nat) (res : String) :
    (recordApply t rn tbl res).rounds
      = setMatch t.rounds rn tbl (writeResult res (effByeScore t res)) := by
  by_cases h : res = "BYE_A" ∧ t.byeScore = 0 <;>
    simp [recordApply, effByeScore, h, updateStandings, recomputePlayersFromRounds]

theorem recordApply_byeScore (t : Tournament) (rn tbl : Nat) (res : String) :
    (recordApply t rn tbl res).byeScore = effByeScore t res := by
  by_cases h : res = "BYE_A" ∧ t.byeScore = 0 <;>
    simp [recordApply, effByeScore, h, updateStandings, recomputePlayersFromRounds]

theorem recordApply_currentRound (t : Tournament) (rn tbl : Nat) (res : String) :
    (recordApply t rn tbl res).currentRound = t.currentRound := by
  by_cases h : res = "BYE_A" ∧ t.byeScore = 0 <;>
    simp [recordApply, h, updateStandings, recomputePlayersFromRounds]

theorem writeResult_playerB (res : String) (v : Rat) (m : Match) :
    (writeResult res v m).playerB_ID = m.playerB_ID := by
  simp only [writeResult]
  split_ifs <;> rfl

theorem halfPlusHalf : mkRat 1 2 + mkRat 1 2 = (1 : Rat) := by
  with_unfolding_all decide

/-! ## Claim C6 -/

/-- C6: `RecordMatchResult` writes exactly score-A=1, score-B=0 for
`A_WIN`; 0/1 for `B_WIN`; 0.5/0.5 for `DRAW`; and byeValue/0 for
`BYE_A`; hence every non-bye match with a recorded result has
score-A + score-B = 1.0 exactly. -/
theorem C6_recordMatchResult_scores (t : Tournament) (rn tbl : Nat) (res : String)
    (t' : Tournament) (h : recordMatchResult t rn tbl res = .ok t') :
    ∃ m, locateMatch t'.rounds rn tbl = some m ∧ m.result = res ∧
      (res = "A_WIN" → m.scoreA = 1 ∧ m.scoreB = 0) ∧
      (res = "B_WIN" → m.scoreA = 0 ∧ m.scoreB = 1) ∧
      (res = "DRAW" → m.scoreA = mkRat 1 2 ∧ m.scoreB = mkRat 1 2) ∧
      (res = "BYE_A" → m.scoreA = t'.byeScore ∧ m.scoreB = 0 ∧
        t'.byeScore = (if t.byeScore = 0 then 1 else t.byeScore)) ∧
      (m.playerB_ID ≠ ByePlayerID → m.scoreA + m.scoreB = 1) := by
  unfold recordMatchResult at h
  cases hm : locateMatch t.rounds rn tbl with
  | none => rw [hm] at h; cases h
  | some m0 =>
    rw [hm] at h
    dsimp only at h
    by_cases hinv : res = "BYE_A" ∧ m0.playerB_ID ≠ ByePlayerID
    · rw [if_pos hinv] at h; cases h
    · rw [if_neg hinv] at h
      by_cases hcode : res = "A_WIN" ∨ res = "B_WIN" ∨ res = "DRAW" ∨ res = "BYE_A"
      · rw [if_pos hcode, Except.ok.injEq] at h
        subst h
        refine ⟨writeResult res (effByeScore t res) m0, ?_, ?_⟩
        · rw [recordApply_rounds]
          exact locateMatch_setMatch t.rounds rn tbl _
            (fun m => writeResult_tableNumber _ _ m) m0 hm
        · rw [recordApply_byeScore]
          rcases hcode with hA | hB | hD | hY
          · subst hA
            have e : writeResult "A_WIN" (effByeScore t "A_WIN") m0
                = { m0 with result := "A_WIN", scoreA := 1, scoreB := 0 } := by
              simp [writeResult]
            rw [e]
            exact ⟨rfl, fun _ => ⟨rfl, rfl⟩, by simp, by simp, by simp,
              fun _ => by norm_num⟩
          · subst hB
            have e : writeResult "B_WIN" (effByeScore t "B_WIN") m0
                = { m0 with result := "B_WIN", scoreA := 0, scoreB := 1 } := by
              simp [writeResult]
            rw [e]
            exact ⟨rfl, by simp, fun _ => ⟨rfl, rfl⟩, by simp, by simp,
              fun _ => by norm_num⟩
          · subst hD
            have e : writeResult "DRAW" (effByeScore t "DRAW") m0
                = { m0 with result := "DRAW", scoreA := mkRat 1 2, scoreB := mkRat 1 2 } := by
              simp [writeResult]
            rw [e]
            exact ⟨rfl, by simp, by simp, fun _ => ⟨rfl, rfl⟩, by simp,
              fun _ => halfPlusHalf⟩
          · subst hY
            have hpb : m0.playerB_ID = ByePlayerID := by
              by_contra hc
              exact hinv ⟨rfl, hc⟩
            have e : writeResult "BYE_A" (effByeScore t "BYE_A") m0
                = ({ m0 with result := "BYE_A", scoreA := effByeScore t "BYE_A", scoreB := 0 }) := by
              simp [writeResult]
            rw [e]
            refine ⟨rfl, by simp, by simp, by simp,
              fun _ => ⟨rfl, rfl, by simp [effByeScore]⟩, fun hnb => ?_⟩
            exact absurd hpb hnb
      · rw [if_neg hcode] at h; cases h

/-- C6 witness: re-record a draw at round 1, table 1 of `exT5`. -/
def exRecorded : Tournament :=
  (recordMatchResult exT5 1 1 "DRAW").toOption.getD exT5

theorem C6_recordMatchResult_scores_witness :
    recordMatchResult exT5 1 1 "DRAW" = .ok exRecorded ∧
    (∃ m, locateMatch exRecorded.rounds 1 1 = some m ∧ m.result = "DRAW" ∧
      (("DRAW" : String) = "A_WIN" → m.scoreA = 1 ∧ m.scoreB = 0) ∧
      (("DRAW" : String) = "B_WIN" → m.scoreA = 0 ∧ m.scoreB = 1) ∧
      (("DRAW" : String) = "DRAW" → m.scoreA = mkRat 1 2 ∧ m.scoreB = mkRat 1 2) ∧
      (("DRAW" : String) = "BYE_A" → m.scoreA = exRecorded.byeScore ∧ m.scoreB = 0 ∧
        exRecorded.byeScore = (if exT5.byeScore = 0 then 1 else exT5.byeScore)) ∧
      (m.playerB_ID ≠ ByePlayerID → m.scoreA + m.scoreB = 1)) := by
  have h : recordMatchResult exT5 1 1 "DRAW" = .ok exRecorded := by
    with_unfolding_all decide
  exact ⟨h, C6_recordMatchResult_scores exT5 1 1 "DRAW" exRecorded h⟩

/-! ## Aggregate view (score, opponent list, colour history, bye flag) -/

/-- The aggregate fields the Aggregate Recomputer owns, together with the
identifying id (Buchholz is owned by the Standings Calculator and is not
part of this view). -/
def aggView (p : Player) : String × Rat × List String × List Char × Bool :=
  (p.id, p.score, p.opponentIDs, p.colorHistory, p.hasBye)

/-- Pointwise aggregate view of a player list. -/
def aggProj (ps : List Player) : List (String × Rat × List String × List Char × Bool) :=
  ps.map aggView

theorem aggProj_updateStandings (t : Tournament) :
    aggProj (updateStandings t).players = aggProj t.players := by
  unfold updateStandings aggProj
  rw [List.map_map]
  rfl

/-- Rounds later than the current round contribute nothing to the
recomputation: restricting to rounds `≤ currentRound` is the identity. -/
theorem recomputePlayers_filter (ps : List Player) (R : List Round) (c : Nat) :
    recomputePlayers ps R c
      = recomputePlayers ps (R.filter (fun r => r.roundNumber ≤ c)) c := by
  unfold recomputePlayers
  generalize ps.map resetAggregates = acc
  induction R generalizing acc with
  | nil => rfl
  | cons r rs ih =>
    by_cases h : r.roundNumber ≤ c
    · rw [List.filter_cons_of_pos (by simpa using h)]
      simp only [List.foldl_cons]
      exact ih _
    · rw [List.filter_cons_of_neg (by simpa using h)]
      simp only [List.foldl_cons]
      rw [if_pos (by omega)]
      exact ih _

/-! ## Claim C9 -/

/-- C9: `GoBackToPreviousRound` at current round 1 (or 0) fails and, being
a pure function returning an error, changes nothing; at current round
`n > 1` (with the previous round present, as the contiguous round
numbering guarantees) it decrements the current round to `n-1`, deletes
no round data, and the competitor aggregates are recomputed from rounds
`≤ n-1` only — the retained later rounds contribute nothing. -/
theorem C9_goBackToPreviousRound (t : Tournament) :
    (t.currentRound ≤ 1 → ∃ e, goBackToPreviousRound t = .error e) ∧
    (2 ≤ t.currentRound →
      t.rounds.any (fun r => r.roundNumber = t.currentRound - 1) = true →
      ∃ t', goBackToPreviousRound t = .ok t' ∧
        t'.currentRound = t.currentRound - 1 ∧
        t'.rounds = t.rounds ∧
        aggProj t'.players = aggProj (recomputePlayers t.players
          (t.rounds.filter (fun r => r.roundNumber ≤ t.currentRound - 1))
          (t.currentRound - 1))) := by
  constructor
  · intro h1
    unfold goBackToPreviousRound
    rw [if_pos h1]
    exact ⟨_, rfl⟩
  · intro h2 hprev
    unfold goBackToPreviousRound
    rw [if_neg (by omega), if_neg (by simp [hprev])]
    refine ⟨goBackApply t, rfl, ?_, ?_, ?_⟩
    · simp [goBackApply, updateStandings, recomputePlayersFromRounds]
    · simp [goBackApply, updateStandings, recomputePlayersFromRounds]
    · have e1 : aggProj (goBackApply t).players
          = aggProj (recomputePlayers t.players t.rounds (t.currentRound - 1)) := by
        unfold goBackApply
        exact aggProj_updateStandings _
      rw [e1, ← recomputePlayers_filter]

/-- C9 witness data: `exT5` advanced to an (unplayed) round 2. -/
def exRound2 : Round :=
  { roundNumber := 2, isComplete := false, Matches :=
    [ { roundNumber := 2, tableNumber := 1, playerA_ID := "p1", playerB_ID := "p3",
        whiteID := "p3", blackID := "p1", result := "", scoreA := 0, scoreB := 0 },
      { roundNumber := 2, tableNumber := 2, playerA_ID := "p5", playerB_ID := "p4",
        whiteID := "p5", blackID := "p4", result := "", scoreA := 0, scoreB := 0 },
      { roundNumber := 2, tableNumber := 3, playerA_ID := "p2", playerB_ID := ByePlayerID,
        whiteID := "p2", blackID := "", result := "", scoreA := 0, scoreB := 0 } ] }

def exT5r2 : Tournament :=
  { exT5 with rounds := [exRound1, exRound2], currentRound := 2 }

theorem C9_goBackToPreviousRound_witness :
    (∃ e, goBackToPreviousRound exT5 = .error e) ∧
    (∃ t', goBackToPreviousRound exT5r2 = .ok t' ∧
      t'.currentRound = exT5r2.currentRound - 1 ∧
      t'.rounds = exT5r2.rounds ∧
      aggProj t'.players = aggProj (recomputePlayers exT5r2.players
        (exT5r2.rounds.filter (fun r => r.roundNumber ≤ exT5r2.currentRound - 1))
        (exT5r2.currentRound - 1))) :=
  ⟨(C9_goBackToPreviousRound exT5).1 (by decide),
   (C9_goBackToPreviousRound exT5r2).2 (by decide) (by with_unfolding_all decide)⟩

/-! ## Claim C8 -/

/-- C8: `CancelCurrentRound` on a current round with at least one recorded
result fails with an error (and, the function being pure, changes
nothing); with zero recorded results it removes exactly that round from
the round list and decrements the current round number by one (logging a
cancellation event). -/
theorem C8_cancelCurrentRound (t : Tournament) (r0 : Round) (rest : List Round)
    (hcr : 1 ≤ t.currentRound)
    (hrem : removeFirstRound t.rounds t.currentRound = some (r0, rest)) :
    (r0.Matches.any (fun m => m.result ≠ "") = true →
      ∃ e, cancelCurrentRound t = .error e) ∧
    (r0.Matches.any (fun m => m.result ≠ "") = false →
      cancelCurrentRound t = .ok
        { t with rounds := rest,
                 currentRound := t.currentRound - 1,
                 events := t.events ++ [⟨"ROUND_CANCELLED", r0.roundNumber, 0⟩] }) := by
  constructor
  · intro hres
    unfold cancelCurrentRound
    rw [if_neg (by omega), hrem]
    dsimp only
    rw [if_pos hres]
    exact ⟨_, rfl⟩
  · intro hres
    unfold cancelCurrentRound
    rw [if_neg (by omega), hrem]
    dsimp only
    rw [if_neg (by rw [hres]; simp)]

/-- C8 witness data: round 2 of `exT5r2` with one recorded result. -/
def exRound2played : Round :=
  { exRound2 with Matches :=
    (exRound2.Matches.map (fun m =>
      if m.tableNumber = 1 then { m with result := "B_WIN", scoreA := 0, scoreB := 1 }
      else m)) }

def exT5r2played : Tournament :=
  { exT5r2 with rounds := [exRound1, exRound2played] }

theorem C8_cancelCurrentRound_witness :
    (∃ e, cancelCurrentRound exT5r2played = .error e) ∧
    cancelCurrentRound exT5r2 = .ok
      { exT5r2 with rounds := [exRound1],
                    currentRound := exT5r2.currentRound - 1,
                    events := exT5r2.events ++ [⟨"ROUND_CANCELLED", exRound2.roundNumber, 0⟩] } := by
  constructor
  · exact (C8_cancelCurrentRound exT5r2played exRound2played [exRound1] (by decide)
      (by with_unfolding_all decide)).1 (by with_unfolding_all decide)
  · exact (C8_cancelCurrentRound exT5r2 exRound2 [exRound1] (by decide)
      (by with_unfolding_all decide)).2 (by with_unfolding_all decide)

/-! ## Claim C10 -/

/-- C10: once the tournament has started (current round number above 0),
`AddPlayer` fails with an error; being a pure function, the stored player
list and `TotalPlayers` of the input are untouched — competitors can only
be added before the first round is created. -/
theorem C10_addPlayer_after_start (t : Tournament) (n c i : String)
    (h : 0 < t.currentRound) : ∃ e, addPlayer t n c i = .error e := by
  unfold addPlayer
  by_cases hn : n.trim = ""
  · rw [if_pos hn]
    exact ⟨_, rfl⟩
  · rw [if_neg hn, if_pos h]
    exact ⟨_, rfl⟩

theorem C10_addPlayer_after_start_witness :
    ∃ e, addPlayer exT5 "Zed" "club" "p9" = .error e :=
  C10_addPlayer_after_start exT5 "Zed" "club" "p9" (by decide)

/-! ## Claim C3 -/

theorem find?_setMatch (R : List Round) (rn tbl : Nat) (f : Match → Match)
    (hf : ∀ m, (f m).tableNumber = m.tableNumber) (r0 : Round)
    (h : R.find? (fun r => roundHasMatch r rn tbl) = some r0) :
    (setMatch R rn tbl f).find? (fun r => roundHasMatch r rn tbl)
      = some (updRound r0 tbl f) := by
  induction R with
  | nil => simp at h
  | cons r rs ih =>
    by_cases hr : roundHasMatch r rn tbl
    · rw [find?_cons_pos (fun x => roundHasMatch x rn tbl) r rs hr, Option.some.injEq] at h
      subst h
      have hr' : roundHasMatch (updRound r tbl f) rn tbl = true := by
        unfold updRound
        exact (roundHasMatch_setRound r _ _ rn tbl
          (updMatchFirst_tables r.Matches tbl f hf)).trans hr
      unfold setMatch
      rw [if_pos hr]
      exact find?_cons_pos (fun x => roundHasMatch x rn tbl) _ rs hr'
    · have hrf : roundHasMatch r rn tbl = false := by simpa using hr
      rw [find?_cons_neg (fun x => roundHasMatch x rn tbl) r rs hrf] at h
      unfold setMatch
      rw [if_neg hr, find?_cons_neg (fun x => roundHasMatch x rn tbl) r _ hrf]
      exact ih h

theorem find?_clearFirstRound (R R' : List Round) (rn : Nat)
    (h : clearFirstRound R rn = some R') :
    ∃ r0 ∈ R, R'.find? (fun r => r.roundNumber = rn) = some (clearRound r0)
      ∧ r0.roundNumber = rn := by
  induction R generalizing R' with
  | nil => unfold clearFirstRound at h; exact Option.noConfusion h
  | cons r rs ih =>
    by_cases hr : r.roundNumber = rn
    · unfold clearFirstRound at h
      rw [if_pos hr, Option.some.injEq] at h
      subst h
      refine ⟨r, by simp, ?_, hr⟩
      exact find?_cons_pos (fun x => decide (x.roundNumber = rn)) (clearRound r) rs
        (by simp [clearRound, hr])
    · unfold clearFirstRound at h
      rw [if_neg hr] at h
      cases hrec : clearFirstRound rs rn with
      | none => rw [hrec] at h; cases h
      | some rest =>
        rw [hrec] at h
        simp at h
        subst h
        obtain ⟨r0, hmem, hfind, hnum⟩ := ih rest hrec
        refine ⟨r0, by simp [hmem], ?_, hnum⟩
        rw [find?_cons_neg (fun x => decide (x.roundNumber = rn)) r rest (by simp [hr])]
        exact hfind

theorem clearMatch_tableNumber (m : Match) :
    ({ m with result := "", scoreA := 0, scoreB := 0 } : Match).tableNumber = m.tableNumber :=
  rfl

/-- C3 counterexample data: a stored round with an empty match list. -/
def exEmptyT : Tournament :=
  { title := "T", description := "D", status := "ACTIVE", players := [],
    rounds := [{ roundNumber := 1, Matches := [], isComplete := true }], events := [],
    currentRound := 1, totalPlayers := 0, byeScore := 1, pairingSystem := "SWISS" }

def exEmptyT' : Tournament :=
  (clearAllResultsInRound exEmptyT 1).toOption.getD exEmptyT

/-- C3 counterexample: on a round whose match list is empty,
`ClearAllResultsInRound` leaves the completion flag `false`, while
"every match in that round has a non-empty result code" holds vacuously —
so the claimed equivalence fails at this input. -/
theorem C3_counterexample :
    clearAllResultsInRound exEmptyT 1 = .ok exEmptyT' ∧
    exEmptyT'.rounds.find? (fun r => r.roundNumber = 1)
      = some { roundNumber := 1, Matches := [], isComplete := false } ∧
    ¬ ((({ roundNumber := 1, Matches := [], isComplete := false } : Round).isComplete = true)
        ↔ (∀ m ∈ ({ roundNumber := 1, Matches := [], isComplete := false } : Round).Matches,
            m.result ≠ "")) := by
  refine ⟨by with_unfolding_all decide, by with_unfolding_all decide, ?_⟩
  intro hiff
  exact absurd (hiff.mpr (by simp)) (by simp)

/-- C3 (amended): after `RecordMatchResult` or `ClearMatchResult` the
affected round's completion flag is true iff every match of the round has
a non-empty result code; after `ClearAllResultsInRound` the flag is false
and the equivalence holds provided the round has at least one match (on a
round with no matches the flag is false while the quantification is
vacuously true); and `AdvanceToNextRound` fails — leaving the tournament
unchanged, the function being pure — whenever the round numbered
`CurrentRound` exists (round numbers being at least 1, as the data-model
invariant guarantees) and its completion flag is false. -/
theorem C3_completion_flag :
    (∀ t rn tbl res t', recordMatchResult t rn tbl res = .ok t' →
      ∃ rd, t'.rounds.find? (fun r => roundHasMatch r rn tbl) = some rd ∧
        (rd.isComplete = true ↔ ∀ m ∈ rd.Matches, m.result ≠ "")) ∧
    (∀ t rn tbl t', clearMatchResult t rn tbl = .ok t' →
      ∃ rd, t'.rounds.find? (fun r => roundHasMatch r rn tbl) = some rd ∧
        (rd.isComplete = true ↔ ∀ m ∈ rd.Matches, m.result ≠ "")) ∧
    (∀ t rn t', clearAllResultsInRound t rn = .ok t' →
      ∃ rd, t'.rounds.find? (fun r => r.roundNumber = rn) = some rd ∧
        rd.isComplete = false ∧
        (rd.Matches ≠ [] → (rd.isComplete = true ↔ ∀ m ∈ rd.Matches, m.result ≠ ""))) ∧
    (∀ engine t rd, (∀ r ∈ t.rounds, 1 ≤ r.roundNumber) →
      t.rounds.find? (fun r => r.roundNumber = t.currentRound) = some rd →
      rd.isComplete = false →
      ∃ e, advanceToNextRound engine t = .error e) := by
  refine ⟨?_, ?_, ?_, ?_⟩
  · intro t rn tbl res t' h
    unfold recordMatchResult at h
    cases hm : locateMatch t.rounds rn tbl with
    | none => rw [hm] at h; cases h
    | some m0 =>
      rw [hm] at h
      dsimp only at h
      by_cases hinv : res = "BYE_A" ∧ m0.playerB_ID ≠ ByePlayerID
      · rw [if_pos hinv] at h; cases h
      · rw [if_neg hinv] at h
        by_cases hcode : res = "A_WIN" ∨ res = "B_WIN" ∨ res = "DRAW" ∨ res = "BYE_A"
        · rw [if_pos hcode, Except.ok.injEq] at h
          subst h
          unfold locateMatch at hm
          cases hfr : t.rounds.find? (fun r => roundHasMatch r rn tbl) with
          | none => rw [hfr] at hm; cases hm
          | some r0 =>
            rw [recordApply_rounds]
            refine ⟨_, find?_setMatch t.rounds rn tbl _
              (fun m => writeResult_tableNumber _ _ m) r0 hfr, ?_⟩
            simp [updRound, List.all_eq_true]
        · rw [if_neg hcode] at h; cases h
  · intro t rn tbl t' h
    unfold clearMatchResult at h
    cases hm : locateMatch t.rounds rn tbl with
    | none => rw [hm] at h; cases h
    | some m0 =>
      rw [hm] at h
      dsimp only at h
      rw [Except.ok.injEq] at h
      subst h
      unfold locateMatch at hm
      cases hfr : t.rounds.find? (fun r => roundHasMatch r rn tbl) with
      | none => rw [hfr] at hm; cases hm
      | some r0 =>
        refine ⟨updRound r0 tbl (fun m => { m with result := "", scoreA := 0, scoreB := 0 }),
          ?_, ?_⟩
        · show ((updateStandings (recomputePlayersFromRounds _)).rounds.find? _) = _
          rw [rounds_updateStandings, rounds_recomputePlayersFromRounds]
          exact find?_setMatch t.rounds rn tbl _ (fun m => clearMatch_tableNumber m) r0 hfr
        · simp [updRound, List.all_eq_true]
  · intro t rn t' h
    unfold clearAllResultsInRound at h
    cases hc : clearFirstRound t.rounds rn with
    | none => rw [hc] at h; cases h
    | some rounds' =>
      rw [hc] at h
      dsimp only at h
      rw [Except.ok.injEq] at h
      subst h
      obtain ⟨r0, _, hfind, _⟩ := find?_clearFirstRound t.rounds rounds' rn hc
      refine ⟨clearRound r0, ?_, rfl, ?_⟩
      · show ((updateStandings (recomputePlayersFromRounds _)).rounds.find? _) = _
        rw [rounds_updateStandings, rounds_recomputePlayersFromRounds]
        exact hfind
      · intro hne
        constructor
        · intro hfalse; cases hfalse
        · intro hall
          cases hms : r0.Matches with
          | nil => exact absurd (by simp [clearRound, hms]) hne
          | cons m ms =>
            have : (({ m with result := "", scoreA := 0, scoreB := 0 } : Match).result ≠ "") := by
              refine hall _ ?_
              simp [clearRound, hms]
            simp at this
  · intro engine t rd hinv hfind hflag
    have h1 : 1 ≤ t.currentRound := by
      have hmem := List.mem_of_find?_eq_some hfind
      have hp := List.find?_some hfind
      simp only [decide_eq_true_eq] at hp
      have := hinv rd hmem
      omega
    unfold advanceToNextRound
    rw [hfind]
    dsimp only
    rw [if_pos ?_]
    · exact ⟨_, rfl⟩
    · have h2 : 0 < t.currentRound := by omega
      simp [hflag, h2]

theorem C3_completion_flag_witness :
    (∃ rd, exRecorded.rounds.find? (fun r => roundHasMatch r 1 1) = some rd ∧
      (rd.isComplete = true ↔ ∀ m ∈ rd.Matches, m.result ≠ "")) ∧
    (∃ e, advanceToNextRound (generatePairings exRoundOne) exT5r2 = .error e) :=
  ⟨(C3_completion_flag.1 exT5 1 1 "DRAW" exRecorded (by with_unfolding_all decide)),
   (C3_completion_flag.2.2.2 (generatePairings exRoundOne) exT5r2 exRound2
     (by decide) (by with_unfolding_all decide) (by decide))⟩

/-! ## Claim C5 -/

/-- Lexicographic sort key of the standings order: score descending, then
Buchholz descending, then name ascending. -/
def sKey (p : Player) : (Rat)ᵒᵈ ×ₗ ((Rat)ᵒᵈ ×ₗ String) :=
  toLex (OrderDual.toDual p.score, toLex (OrderDual.toDual p.buchholz, p.name))

theorem standingsLessB_iff (a b : Player) :
    standingsLessB a b = true ↔ sKey a < sKey b := by
  unfold standingsLessB sKey
  rw [Prod.Lex.lt_iff, Prod.Lex.lt_iff]
  simp only [OrderDual.toDual_lt_toDual, OrderDual.toDual_inj]
  by_cases h1 : a.score = b.score
  · rw [if_neg (not_ne_iff.mpr h1)]
    by_cases h2 : a.buchholz = b.buchholz
    · rw [if_neg (not_ne_iff.mpr h2), decide_eq_true_eq]
      constructor
      · intro h
        exact Or.inr ⟨h1, Or.inr ⟨h2, h⟩⟩
      · rintro (h | ⟨-, h | ⟨-, h⟩⟩)
        · exact absurd h (by rw [h1]; exact lt_irrefl _)
        · exact absurd h (by rw [h2]; exact lt_irrefl _)
        · exact h
    · rw [if_pos h2, decide_eq_true_eq]
      constructor
      · intro h
        exact Or.inr ⟨h1, Or.inl h⟩
      · rintro (h | ⟨-, h | ⟨he, -⟩⟩)
        · exact absurd h (by rw [h1]; exact lt_irrefl _)
        · exact h
        · exact absurd he h2
  · rw [if_pos h1, decide_eq_true_eq]
    constructor
    · intro h
      exact Or.inl h
    · rintro (h | ⟨he, -⟩)
      · exact h
      · exact absurd he h1

theorem standingsLe_iff (a b : Player) : standingsLe a b ↔ sKey a ≤ sKey b := by
  unfold standingsLe
  rw [← not_lt]
  constructor
  · intro h hlt
    rw [← standingsLessB_iff] at hlt
    rw [h] at hlt
    cases hlt
  · intro h
    by_cases hb : standingsLessB b a = true
    · exact absurd ((standingsLessB_iff b a).mp hb) h
    · simpa using hb

instance : IsTotal Player standingsLe :=
  ⟨fun a b => by
    rw [standingsLe_iff, standingsLe_iff]
    exact le_total (sKey a) (sKey b)⟩

instance : IsTrans Player standingsLe :=
  ⟨fun a b c hab hbc => by
    rw [standingsLe_iff] at hab hbc ⊢
    exact le_trans hab hbc⟩

/-- The current score of the competitor with id `x` (the spec reading of
"current scores of opponents": zero when no such competitor exists). -/
def scoreOf (players : List Player) (x : String) : Rat :=
  match players.find? (fun p => p.id = x) with
  | some p => p.score
  | none => 0

/-- One step of the `scoreIndex` fold. -/
def scoreStep (acc : String → Rat) (p : Player) : String → Rat :=
  fun x => if x = p.id then p.score else acc x

theorem scoreIndexOf_eq_foldl (ps : List Player) :
    scoreIndexOf ps = ps.foldl scoreStep (fun _ => 0) := rfl

theorem foldl_scoreStep_notMem (ps : List Player) (acc : String → Rat) (x : String)
    (h : ∀ p ∈ ps, p.id ≠ x) : (ps.foldl scoreStep acc) x = acc x := by
  induction ps generalizing acc with
  | nil => rfl
  | cons p ps ih =>
    rw [List.foldl_cons, ih _ (fun q hq => h q (List.mem_cons_of_mem p hq))]
    show (if x = p.id then p.score else acc x) = acc x
    exact if_neg (fun he => h p (List.mem_cons_self p ps) he.symm)

theorem foldl_scoreStep_congr (ps : List Player) (acc1 acc2 : String → Rat) (x : String)
    (h : acc1 x = acc2 x) : (ps.foldl scoreStep acc1) x = (ps.foldl scoreStep acc2) x := by
  induction ps generalizing acc1 acc2 with
  | nil => exact h
  | cons p ps ih =>
    rw [List.foldl_cons, List.foldl_cons]
    refine ih _ _ ?_
    simp only [scoreStep]
    by_cases hx : x = p.id
    · rw [if_pos hx, if_pos hx]
    · rw [if_neg hx, if_neg hx]
      exact h

/-- On a player list with distinct ids, the Go `scoreIndex` map (last
entry wins) agrees with the first-match lookup of the specification. -/
theorem scoreIndexOf_eq_scoreOf (ps : List Player)
    (h : (ps.map (fun p => p.id)).Nodup) (x : String) :
    scoreIndexOf ps x = scoreOf ps x := by
  rw [scoreIndexOf_eq_foldl]
  induction ps with
  | nil => rfl
  | cons p ps ih =>
    rw [List.map_cons, List.nodup_cons] at h
    rw [List.foldl_cons]
    by_cases hx : p.id = x
    · rw [foldl_scoreStep_notMem ps _ x ?_]
      · show (if x = p.id then p.score else 0) = scoreOf (p :: ps) x
        rw [if_pos hx.symm]
        unfold scoreOf
        rw [find?_cons_pos (fun q => decide (q.id = x)) p ps (by simp [hx])]
      · intro q hq he
        refine h.1 ?_
        have hqp : q.id = p.id := he.trans hx.symm
        rw [← hqp]
        exact List.mem_map_of_mem _ hq
    · rw [foldl_scoreStep_congr ps _ (fun _ => 0) x ?_]
      · rw [ih h.2]
        unfold scoreOf
        rw [find?_cons_neg (fun q => decide (q.id = x)) p ps (by simp [hx])]
      · show (if x = p.id then p.score else 0) = 0
        exact if_neg (fun he => hx he.symm)

theorem foldl_buchholz_sum (l : List String) (idx : String → Rat) (s : Rat) :
    l.foldl (fun sum oid => if oid = ByePlayerID then sum else sum + idx oid) s
      = s + ((l.filter (fun o => o ≠ ByePlayerID)).map idx).sum := by
  induction l generalizing s with
  | nil => simp
  | cons o l ih =>
    rw [List.foldl_cons]
    by_cases ho : o = ByePlayerID
    · rw [if_pos ho, ih, List.filter_cons_of_neg (by simp [ho])]
    · rw [if_neg ho, ih, List.filter_cons_of_pos (by simp [ho])]
      simp [add_assoc]

/-- C5: after `GetStandings`, every returned competitor's Buchholz equals
the sum of the current scores of its distinct opponents (its opponent
list is duplicate-free, so the BYE-filtered list enumerates exactly the
distinct opponents) excluding the BYE sentinel, and the returned list is
a permutation of the players sorted by score descending, then Buchholz
descending, then name ascending. -/
theorem C5_getStandings (t : Tournament)
    (hids : (t.players.map (fun p => p.id)).Nodup)
    (hopp : ∀ p ∈ t.players, p.opponentIDs.Nodup) :
    ((getStandingsT t).2.Perm (updateStandings t).players) ∧
    (∀ q ∈ (getStandingsT t).2, q.opponentIDs.Nodup ∧
      q.buchholz
        = ((q.opponentIDs.filter (fun o => o ≠ ByePlayerID)).map (scoreOf t.players)).sum) ∧
    List.Sorted standingsLe (getStandingsT t).2 := by
  refine ⟨List.perm_insertionSort standingsLe _, ?_, List.sorted_insertionSort standingsLe _⟩
  intro q hq
  have hq2 : q ∈ List.insertionSort standingsLe (updateStandings t).players := hq
  rw [(List.perm_insertionSort standingsLe _).mem_iff] at hq2
  unfold updateStandings at hq2
  simp only [List.mem_map] at hq2
  obtain ⟨p, hp, hq3⟩ := hq2
  subst hq3
  refine ⟨hopp p hp, ?_⟩
  show p.opponentIDs.foldl _ 0 = _
  rw [foldl_buchholz_sum p.opponentIDs (scoreIndexOf t.players) 0, zero_add]
  congr 1
  exact List.map_congr_left (fun o _ => scoreIndexOf_eq_scoreOf t.players hids o)

theorem C5_getStandings_witness :
    ((getStandingsT exT5).2.Perm (updateStandings exT5).players) ∧
    (∀ q ∈ (getStandingsT exT5).2, q.opponentIDs.Nodup ∧
      q.buchholz
        = ((q.opponentIDs.filter (fun o => o ≠ ByePlayerID)).map (scoreOf exT5.players)).sum) ∧
    List.Sorted standingsLe (getStandingsT exT5).2 :=
  C5_getStandings exT5 (by with_unfolding_all decide) (by with_unfolding_all decide)

/-! ## Claim C1 -/

theorem countP_cons_pos {α : Type} (p : α → Bool) (a : α) (l : List α) (h : p a = true) :
    List.countP p (a :: l) = List.countP p l + 1 :=
  List.countP_cons_of_pos p l h

theorem countP_cons_neg {α : Type} (p : α → Bool) (a : α) (l : List α) (h : p a = false) :
    List.countP p (a :: l) = List.countP p l :=
  List.countP_cons_of_neg p l (by simp [h])

theorem firstSome_eq_some {α β : Type} (f : α → Option β) (l : List α) (y : β)
    (h : firstSome f l = some y) : ∃ x ∈ l, f x = some y := by
  induction l with
  | nil => cases h
  | cons x xs ih =>
    unfold firstSome at h
    cases hx : f x with
    | some z =>
      rw [hx] at h
      exact ⟨x, by simp, hx.trans h⟩
    | none =>
      rw [hx] at h
      obtain ⟨x', hx', hf⟩ := ih h
      exact ⟨x', by simp [hx'], hf⟩

theorem candidatesFor_mem (ps : List Player) (used : List String) (a : Player)
    (lt : String → Nat) (c : Cand) (h : c ∈ candidatesFor ps used a lt) :
    c.p ∈ ps ∧ havePlayed a c.p = false ∧ fabs (a.score - c.p.score) ≤ 1 := by
  unfold candidatesFor at h
  rw [List.mem_filterMap] at h
  obtain ⟨q, hq, hf⟩ := h
  by_cases h1 : q.id = a.id ∨ used.contains q.id
  · rw [if_pos h1] at hf; cases hf
  · rw [if_neg h1] at hf
    by_cases h2 : havePlayed a q = true
    · rw [if_pos h2] at hf; cases hf
    · rw [if_neg h2] at hf
      dsimp only at hf
      by_cases h3 : 1 < fabs (a.score - q.score)
      · rw [if_pos h3] at hf; cases hf
      · rw [if_neg h3] at hf
        rw [Option.some.injEq] at hf
        subst hf
        exact ⟨hq, by simpa using h2, le_of_not_lt h3⟩

theorem mkPairMatch_playerA (rn tbl : Nat) (a b : Player) :
    (mkPairMatch rn tbl a b).playerA_ID = a.id := rfl

theorem mkPairMatch_playerB (rn tbl : Nat) (a b : Player) :
    (mkPairMatch rn tbl a b).playerB_ID = b.id := rfl

theorem mkByeMatch_playerA (rn tbl : Nat) (bye : Player) :
    (mkByeMatch rn tbl bye).playerA_ID = bye.id := rfl

theorem mkByeMatch_playerB (rn tbl : Nat) (bye : Player) :
    (mkByeMatch rn tbl bye).playerB_ID = ByePlayerID := rfl

/-- Soundness of the backtracking search: every returned non-bye match
pairs two input players with no rematch and score gap at most 1.0, and
the number of bye matches is bounded by the bye flag. -/
theorem pairSearch_sound (rn : Nat) (ps : List Player) (lt : String → Nat) (allowBye : Bool)
    (hids : ∀ p ∈ ps, p.id ≠ ByePlayerID) :
    ∀ fuel used byeAssigned table ms,
      pairSearch rn ps lt allowBye fuel used byeAssigned table = some ms →
      (∀ m ∈ ms, m.playerB_ID = ByePlayerID ∨
        (∃ a, a ∈ ps ∧ ∃ b, b ∈ ps ∧ m.playerA_ID = a.id ∧ m.playerB_ID = b.id ∧
          havePlayed a b = false ∧ fabs (a.score - b.score) ≤ 1)) ∧
      ms.countP (fun m => m.playerB_ID = ByePlayerID)
        ≤ (if byeAssigned then 0 else 1) := by
  intro fuel
  induction fuel with
  | zero =>
    intro used byeAssigned table ms h
    cases h
  | succ fuel ih =>
    intro used byeAssigned table ms h
    unfold pairSearch at h
    cases hfind : ps.find? (fun p => ¬ used.contains p.id) with
    | none =>
      rw [hfind] at h
      cases h
      exact ⟨by simp, by simp⟩
    | some a =>
      rw [hfind] at h
      dsimp only at h
      cases hfs : firstSome
          (fun c =>
            (pairSearch rn ps lt allowBye fuel (c.p.id :: a.id :: used) byeAssigned
                (table + 1)).map
              (fun ms => mkPairMatch rn table a c.p :: ms))
          (List.insertionSort candLe (candidatesFor ps used a lt)) with
      | some ms' =>
        rw [hfs] at h
        rw [Option.some.injEq] at h
        subst h
        obtain ⟨c, hc, hfc⟩ := firstSome_eq_some _ _ _ hfs
        cases htail : pairSearch rn ps lt allowBye fuel (c.p.id :: a.id :: used)
            byeAssigned (table + 1) with
        | none => rw [htail] at hfc; cases hfc
        | some tail =>
          rw [htail] at hfc
          have hfc2 : mkPairMatch rn table a c.p :: tail = ms' := by simpa using hfc
          subst hfc2
          have hcm : c ∈ candidatesFor ps used a lt :=
            (List.perm_insertionSort candLe _).mem_iff.mp hc
          obtain ⟨hbp, hplayed, hdiff⟩ := candidatesFor_mem ps used a lt c hcm
          have ha : a ∈ ps := List.mem_of_find?_eq_some hfind
          obtain ⟨ihc, ihcount⟩ := ih _ _ _ _ htail
          constructor
          · intro m hm
            rcases List.mem_cons.mp hm with hm | hm
            · subst hm
              right
              exact ⟨a, ha, c.p, hbp, mkPairMatch_playerA rn table a c.p,
                mkPairMatch_playerB rn table a c.p, hplayed, hdiff⟩
            · exact ihc m hm
          · have hnb : ¬ ((mkPairMatch rn table a c.p).playerB_ID = ByePlayerID) := by
              rw [mkPairMatch_playerB]
              exact hids c.p hbp
            rw [countP_cons_neg (fun m => decide (m.playerB_ID = ByePlayerID))
              (mkPairMatch rn table a c.p) tail (by simpa using hnb)]
            exact ihcount
      | none =>
        rw [hfs] at h
        by_cases hbye : allowBye ∧ byeAssigned = false
        · rw [if_pos hbye] at h
          cases hcb : chooseBye (ps.filter (fun p => ¬ used.contains p.id)) with
          | none => rw [hcb] at h; cases h
          | some bye =>
            rw [hcb] at h
            dsimp only at h
            cases htail : pairSearch rn ps lt allowBye fuel (bye.id :: used) true
                (table + 1) with
            | none => rw [htail] at h; cases h
            | some tail =>
              rw [htail] at h
              have h2 : mkByeMatch rn table bye :: tail = ms := by simpa using h
              subst h2
              obtain ⟨ihc, ihcount⟩ := ih _ _ _ _ htail
              constructor
              · intro m hm
                rcases List.mem_cons.mp hm with hm | hm
                · subst hm
                  exact Or.inl (mkByeMatch_playerB rn table bye)
                · exact ihc m hm
              · rw [countP_cons_pos (fun m => decide (m.playerB_ID = ByePlayerID))
                  (mkByeMatch rn table bye) tail (by simp [mkByeMatch_playerB])]
                have ihz : List.countP (fun m => decide (m.playerB_ID = ByePlayerID)) tail
                    = 0 := by
                  simpa using ihcount
                rw [hbye.2]
                simp [ihz]
        · rw [if_neg hbye] at h
          cases h

/-- C1: for every round number ≥ 2, every non-bye match returned by
`GeneratePairings` pairs two competitors `a` (seat A) and `b` (seat B)
such that `b` is not in the opponent-id history of `a` and the absolute
score difference is at most 1.0; and the round contains at most one bye
match.  Competitor ids are distinct from the BYE sentinel, per the
data-model invariant. -/
theorem C1_generatePairings_constraints (r1 : List Player → Except String (List Match))
    (t : Tournament) (players : List Player) (rn : Nat) (ms : List Match)
    (hrn : 2 ≤ rn)
    (hids : ∀ p ∈ players, p.id ≠ ByePlayerID)
    (h : generatePairings r1 t players rn = .ok ms) :
    (∀ m ∈ ms, m.playerB_ID ≠ ByePlayerID →
      ∃ a, a ∈ players ∧ ∃ b, b ∈ players ∧ m.playerA_ID = a.id ∧ m.playerB_ID = b.id ∧
        havePlayed a b = false ∧ fabs (a.score - b.score) ≤ 1) ∧
    ms.countP (fun m => m.playerB_ID = ByePlayerID) ≤ 1 := by
  unfold generatePairings at h
  rw [if_neg (by omega)] at h
  unfold swissSearch at h
  cases hps : pairSearch rn (sortStandings players)
      (if 1 < rn then lastTableOf t.rounds (rn - 1) else fun _ => 0)
      ((sortStandings players).length % 2 = 1)
      ((sortStandings players).length + 1) [] false 1 with
  | none => rw [hps] at h; cases h
  | some ms' =>
    rw [hps] at h
    rw [Except.ok.injEq] at h
    subst h
    have hperm := List.perm_insertionSort standingsLe players
    have hids' : ∀ p ∈ sortStandings players, p.id ≠ ByePlayerID :=
      fun p hp => hids p (hperm.mem_iff.mp hp)
    obtain ⟨hc, hcount⟩ := pairSearch_sound rn (sortStandings players) _ _ hids'
      _ _ _ _ _ hps
    constructor
    · intro m hm hnb
      rcases hc m hm with hb | ⟨a, ha, b, hb2, h3, h4, h5, h6⟩
      · exact absurd hb hnb
      · exact ⟨a, hperm.mem_iff.mp ha, b, hperm.mem_iff.mp hb2, h3, h4, h5, h6⟩
    · simpa using hcount

/-- The round-2 pairing of the `exT5` scenario, as computed by the
constrained search. -/
def exMatches2 : List Match :=
  [ { roundNumber := 2, tableNumber := 1, playerA_ID := "p1", playerB_ID := "p3",
      whiteID := "p3", blackID := "p1", result := "", scoreA := 0, scoreB := 0 },
    { roundNumber := 2, tableNumber := 2, playerA_ID := "p5", playerB_ID := "p4",
      whiteID := "p5", blackID := "p4", result := "", scoreA := 0, scoreB := 0 },
    { roundNumber := 2, tableNumber := 3, playerA_ID := "p2", playerB_ID := ByePlayerID,
      whiteID := "p2", blackID := "", result := "", scoreA := 0, scoreB := 0 } ]

theorem C1_generatePairings_constraints_witness :
    (∀ m ∈ exMatches2, m.playerB_ID ≠ ByePlayerID →
      ∃ a, a ∈ exPlayers5 ∧ ∃ b, b ∈ exPlayers5 ∧
        m.playerA_ID = a.id ∧ m.playerB_ID = b.id ∧
        havePlayed a b = false ∧ fabs (a.score - b.score) ≤ 1) ∧
    exMatches2.countP (fun m => m.playerB_ID = ByePlayerID) ≤ 1 :=
  C1_generatePairings_constraints exRoundOne exT5 exPlayers5 2 exMatches2
    (by norm_num) (by with_unfolding_all decide) (by with_unfolding_all decide)

/-! ## Claim C2 -/

/-- C2: when the backtracking search for round `CurrentRound + 1 ≥ 2`
exhausts all branches, `GeneratePairings` returns the
constraint-unsatisfiable error, and `AdvanceToNextRound` consequently
returns an error — the round list and current round number of the input
tournament are left exactly as they were, the operation being a pure
function that produces no new tournament. -/
theorem C2_constraint_unsatisfiable (r1 : List Player → Except String (List Match))
    (t : Tournament)
    (hcr : 1 ≤ t.currentRound)
    (hfail : swissSearch t t.players (t.currentRound + 1) = none) :
    generatePairings r1 t t.players (t.currentRound + 1)
      = .error constraintUnsatisfiableMsg ∧
    ∃ e, advanceToNextRound (generatePairings r1) t = .error e := by
  have h1 : generatePairings r1 t t.players (t.currentRound + 1)
      = .error constraintUnsatisfiableMsg := by
    unfold generatePairings
    rw [if_neg (by omega), hfail]
  refine ⟨h1, ?_⟩
  unfold advanceToNextRound
  dsimp only
  by_cases hg : (decide (0 < t.currentRound) &&
      (match t.rounds.find? (fun r => r.roundNumber = t.currentRound) with
       | some r => ¬ r.isComplete
       | none => false)) = true
  · rw [if_pos hg]
    exact ⟨_, rfl⟩
  · rw [if_neg hg, h1]
    exact ⟨_, rfl⟩

theorem C2_constraint_unsatisfiable_witness :
    generatePairings exRoundOne exT4 exPlayers4 (exT4.currentRound + 1)
      = .error constraintUnsatisfiableMsg ∧
    ∃ e, advanceToNextRound (generatePairings exRoundOne) exT4 = .error e := by
  have h := C2_constraint_unsatisfiable exRoundOne exT4 (by decide)
    (by with_unfolding_all decide)
  exact ⟨h.1, h.2⟩

/-! ## Claim C7 -/

/-- Lexicographic sort key of the bye-candidate order: score ascending,
then Buchholz ascending, then name ascending. -/
def bKey (p : Player) : Rat ×ₗ (Rat ×ₗ String) :=
  toLex (p.score, toLex (p.buchholz, p.name))

theorem byeLessB_iff (a b : Player) : byeLessB a b = true ↔ bKey a < bKey b := by
  unfold byeLessB bKey
  rw [Prod.Lex.lt_iff, Prod.Lex.lt_iff]
  by_cases h1 : a.score = b.score
  · rw [if_neg (not_ne_iff.mpr h1)]
    by_cases h2 : a.buchholz = b.buchholz
    · rw [if_neg (not_ne_iff.mpr h2), decide_eq_true_eq]
      constructor
      · intro h
        exact Or.inr ⟨h1, Or.inr ⟨h2, h⟩⟩
      · rintro (h | ⟨-, h | ⟨-, h⟩⟩)
        · exact absurd h (by rw [h1]; exact lt_irrefl _)
        · exact absurd h (by rw [h2]; exact lt_irrefl _)
        · exact h
    · rw [if_pos h2, decide_eq_true_eq]
      constructor
      · intro h
        exact Or.inr ⟨h1, Or.inl h⟩
      · rintro (h | ⟨-, h | ⟨he, -⟩⟩)
        · exact absurd h (by rw [h1]; exact lt_irrefl _)
        · exact h
        · exact absurd he h2
  · rw [if_pos h1, decide_eq_true_eq]
    constructor
    · intro h
      exact Or.inl h
    · rintro (h | ⟨he, -⟩)
      · exact h
      · exact absurd he h1

theorem byeLe_iff (a b : Player) : byeLe a b ↔ bKey a ≤ bKey b := by
  unfold byeLe
  rw [← not_lt]
  constructor
  · intro h hlt
    rw [← byeLessB_iff] at hlt
    rw [h] at hlt
    cases hlt
  · intro h
    by_cases hb : byeLessB b a = true
    · exact absurd ((byeLessB_iff b a).mp hb) h
    · simpa using hb

instance : IsTotal Player byeLe :=
  ⟨fun a b => by
    rw [byeLe_iff, byeLe_iff]
    exact le_total (bKey a) (bKey b)⟩

instance : IsTrans Player byeLe :=
  ⟨fun a b c hab hbc => by
    rw [byeLe_iff] at hab hbc ⊢
    exact le_trans hab hbc⟩

/-- In a list sorted by `le`, the first element satisfying `pred` is a
`le`-lower bound of every element satisfying `pred`. -/
theorem find?_sorted_min {α : Type} (le : α → α → Prop) (pred : α → Bool) (l : List α)
    (hs : l.Pairwise le) (p : α) (h : l.find? pred = some p) :
    ∀ q ∈ l, pred q = true → le p q ∨ p = q := by
  induction l with
  | nil => cases h
  | cons x xs ih =>
    rw [List.pairwise_cons] at hs
    by_cases hx : pred x = true
    · rw [find?_cons_pos pred x xs hx, Option.some.injEq] at h
      subst h
      intro q hq hpq
      rcases List.mem_cons.mp hq with hq | hq
      · exact Or.inr hq.symm
      · exact Or.inl (hs.1 q hq)
    · rw [find?_cons_neg pred x xs (by simpa using hx)] at h
      intro q hq hpq
      rcases List.mem_cons.mp hq with hq | hq
      · subst hq
        exact absurd hpq hx
      · exact ih hs.2 h q hq hpq

theorem find?_pred {α : Type} (p : α → Bool) (a : α) (l : List α)
    (h : List.find? p l = some a) : p a = true :=
  List.find?_some h

theorem byeLessB_irrefl (p : Player) : byeLessB p p = false := by
  by_cases h : byeLessB p p = true
  · exact absurd ((byeLessB_iff p p).mp h) (lt_irrefl _)
  · simpa using h

/-- C7: when the backtracking search takes the bye branch, `chooseBye`
assigns the bye to a currently-unpaired competitor who has not already
had a bye (whenever one exists) and who is lowest in the
(score, tie-break, name) ascending order among those; in particular, in
the concrete 5-competitor round-2 scenario `exT5` exactly one bye is
assigned, and it goes to `p2`, the lowest-scoring competitor without a
prior bye. -/
theorem C7_bye_choice :
    (∀ (cands : List Player) (p : Player),
      chooseBye cands = some p →
      (∃ q ∈ cands, q.hasBye = false) →
      p.hasBye = false ∧ ∀ q ∈ cands, q.hasBye = false → byeLessB q p = false) ∧
    (generatePairings exRoundOne exT5 exPlayers5 2 = .ok exMatches2 ∧
      exMatches2.countP (fun m => m.playerB_ID = ByePlayerID) = 1 ∧
      (exMatches2.filter (fun m => m.playerB_ID = ByePlayerID)).map
        (fun m => m.playerA_ID) = ["p2"] ∧
      ∃ q ∈ exPlayers5, q.id = "p2" ∧ q.hasBye = false ∧
        ∀ r ∈ exPlayers5, r.hasBye = false → q.score ≤ r.score) := by
  constructor
  · intro cands p hcb hex
    unfold chooseBye at hcb
    dsimp only at hcb
    have hsorted : (List.insertionSort byeLe cands).Pairwise byeLe :=
      List.sorted_insertionSort byeLe cands
    cases hf : (List.insertionSort byeLe cands).find? (fun q => ¬ q.hasBye) with
    | none =>
      rw [List.find?_eq_none] at hf
      obtain ⟨q, hq, hqb⟩ := hex
      have hq2 : q ∈ List.insertionSort byeLe cands :=
        (List.perm_insertionSort byeLe cands).mem_iff.mpr hq
      exact absurd (by simp [hqb]) (hf q hq2)
    | some p0 =>
      rw [hf] at hcb
      dsimp only at hcb
      rw [Option.some.injEq] at hcb
      subst hcb
      have hp0 := find?_pred (fun q => ¬ q.hasBye) p0 (List.insertionSort byeLe cands) hf
      refine ⟨by simpa using hp0, ?_⟩
      intro q hq hqb
      have hq2 : q ∈ List.insertionSort byeLe cands :=
        (List.perm_insertionSort byeLe cands).mem_iff.mpr hq
      rcases find?_sorted_min byeLe _ _ hsorted p0 hf q hq2 (by simp [hqb]) with hle | heq
      · exact hle
      · rw [← heq]
        exact byeLessB_irrefl p0
  · refine ⟨by with_unfolding_all decide, by with_unfolding_all decide,
      by with_unfolding_all decide, ?_⟩
    refine ⟨mkPlayer "p2" "P2" 0 ["p1"] 1 ['B'] false, by with_unfolding_all decide,
      rfl, rfl, ?_⟩
    intro r hr hrb
    fin_cases hr <;> with_unfolding_all decide

theorem C7_bye_choice_witness :
    (mkPlayer "p4" "P4" 0 ["p3"] 1 ['B'] false).hasBye = false ∧
    ∀ q ∈ [mkPlayer "p5" "P5" 1 [] 0 [] true, mkPlayer "p4" "P4" 0 ["p3"] 1 ['B'] false],
      q.hasBye = false →
      byeLessB q (mkPlayer "p4" "P4" 0 ["p3"] 1 ['B'] false) = false :=
  C7_bye_choice.1
    [mkPlayer "p5" "P5" 1 [] 0 [] true, mkPlayer "p4" "P4" 0 ["p3"] 1 ['B'] false]
    (mkPlayer "p4" "P4" 0 ["p3"] 1 ['B'] false)
    (by with_unfolding_all decide)
    ⟨mkPlayer "p4" "P4" 0 ["p3"] 1 ['B'] false, by with_unfolding_all decide,
      by decide⟩

/-! ## Claim C4 -/

theorem aggView_eq_iff (p q : Player) :
    aggView p = aggView q ↔ (p.id = q.id ∧ p.score = q.score ∧
      p.opponentIDs = q.opponentIDs ∧ p.colorHistory = q.colorHistory ∧
      p.hasBye = q.hasBye) := by
  simp [aggView, Prod.ext_iff]

/-- `f` only reads and writes the aggregate view. -/
def AggFun (f : Player → Player) : Prop :=
  ∀ p q, aggView p = aggView q → aggView (f p) = aggView (f q)

theorem aggFun_scoreA (s : Rat) : AggFun (fun a => { a with score := a.score + s }) := by
  intro p q h
  rw [aggView_eq_iff] at h
  obtain ⟨h1, h2, h3, h4, h5⟩ := h
  rw [aggView_eq_iff]
  dsimp only
  rw [h1, h2, h3, h4, h5]
  exact ⟨rfl, rfl, rfl, rfl, rfl⟩

theorem aggFun_hasBye : AggFun (fun a => { a with hasBye := true }) := by
  intro p q h
  rw [aggView_eq_iff] at h
  obtain ⟨h1, h2, h3, h4, h5⟩ := h
  rw [aggView_eq_iff]
  dsimp only
  rw [h1, h2, h3, h4]
  exact ⟨rfl, rfl, rfl, rfl, rfl⟩

theorem ensureOpponent_eq (p : Player) (oid : String) :
    ensureOpponent p oid = { p with opponentIDs :=
      (if p.opponentIDs.contains oid then p.opponentIDs else p.opponentIDs ++ [oid]) } := by
  unfold ensureOpponent
  by_cases hc : p.opponentIDs.contains oid = true
  · rw [if_pos hc, if_pos hc]
  · rw [if_neg hc, if_neg hc]

theorem colorMark_eq (m : Match) (r : Player) :
    colorMark m r = { r with colorHistory :=
      (if m.whiteID = r.id then r.colorHistory ++ ['W']
       else if m.blackID = r.id then r.colorHistory ++ ['B'] else r.colorHistory) } := by
  unfold colorMark
  by_cases hw : m.whiteID = r.id
  · rw [if_pos hw, if_pos hw]
  · rw [if_neg hw, if_neg hw]
    by_cases hb : m.blackID = r.id
    · rw [if_pos hb, if_pos hb]
    · rw [if_neg hb, if_neg hb]

theorem aggFun_colorOpp (m : Match) (oid : String) :
    AggFun (fun a => colorMark m (ensureOpponent a oid)) := by
  intro p q h
  rw [aggView_eq_iff] at h
  obtain ⟨h1, h2, h3, h4, h5⟩ := h
  dsimp only
  rw [colorMark_eq, colorMark_eq, ensureOpponent_eq, ensureOpponent_eq]
  rw [aggView_eq_iff]
  dsimp only
  rw [h1, h2, h3, h4, h5]
  exact ⟨rfl, rfl, rfl, rfl, rfl⟩

theorem ids_eq_of_aggProj (ps1 ps2 : List Player) (h : aggProj ps1 = aggProj ps2) :
    ps1.map (fun p => p.id) = ps2.map (fun p => p.id) := by
  have e1 : ∀ ps : List Player,
      ps.map (fun p => p.id) = (aggProj ps).map (fun x => x.1) := by
    intro ps
    unfold aggProj
    rw [List.map_map]
    rfl
  rw [e1, e1, h]

theorem any_id_congr (ps1 ps2 : List Player) (i : String)
    (h : ps1.map (fun p => p.id) = ps2.map (fun p => p.id)) :
    ps1.any (fun q => q.id = i) = ps2.any (fun q => q.id = i) := by
  induction ps1 generalizing ps2 with
  | nil =>
    cases ps2 with
    | nil => rfl
    | cons b l2 => simp at h
  | cons a l1 ih =>
    cases ps2 with
    | nil => simp at h
    | cons b l2 =>
      simp only [List.map_cons, List.cons.injEq] at h
      simp [List.any_cons, h.1, ih l2 h.2]

theorem updateById_congr (ps1 ps2 : List Player) (i : String) (f : Player → Player)
    (hf : AggFun f) (h : aggProj ps1 = aggProj ps2) :
    aggProj (updateById ps1 i f) = aggProj (updateById ps2 i f) := by
  induction ps1 generalizing ps2 with
  | nil =>
    cases ps2 with
    | nil => rfl
    | cons b l2 => simp [aggProj] at h
  | cons a l1 ih =>
    cases ps2 with
    | nil => simp [aggProj] at h
    | cons b l2 =>
      simp only [aggProj, List.map_cons, List.cons.injEq] at h
      obtain ⟨hab, htl⟩ := h
      have hids : l1.map (fun p => p.id) = l2.map (fun p => p.id) :=
        ids_eq_of_aggProj l1 l2 htl
      have hany : l1.any (fun q => q.id = i) = l2.any (fun q => q.id = i) :=
        any_id_congr l1 l2 i hids
      have hid : a.id = b.id := ((aggView_eq_iff a b).mp hab).1
      unfold updateById
      by_cases h1 : l2.any (fun q => q.id = i) = true
      · rw [if_pos (hany.trans h1), if_pos h1]
        simp only [aggProj, List.map_cons, List.cons.injEq]
        exact ⟨hab, ih l2 htl⟩
      · rw [if_neg (fun hc => h1 (hany.symm.trans hc)), if_neg h1]
        by_cases h2 : b.id = i
        · rw [if_pos (hid.trans h2), if_pos h2]
          simp only [aggProj, List.map_cons, List.cons.injEq]
          exact ⟨hf a b hab, htl⟩
        · rw [if_neg (fun hc => h2 (hid.symm.trans hc)), if_neg h2]
          simp only [aggProj, List.map_cons, List.cons.injEq]
          exact ⟨hab, htl⟩

theorem applyMatch_congr (ps1 ps2 : List Player) (m : Match)
    (h : aggProj ps1 = aggProj ps2) :
    aggProj (applyMatch ps1 m) = aggProj (applyMatch ps2 m) := by
  unfold applyMatch
  by_cases hb : m.playerB_ID = ByePlayerID
  · simp only [if_pos hb]
    exact updateById_congr _ _ _ _ aggFun_hasBye
      (updateById_congr _ _ _ _ (aggFun_scoreA m.scoreA) h)
  · simp only [if_neg hb]
    refine updateById_congr _ _ _ _ (aggFun_colorOpp m m.playerA_ID) ?_
    refine updateById_congr _ _ _ _ (aggFun_colorOpp m m.playerB_ID) ?_
    refine updateById_congr _ _ _ _ (aggFun_scoreA m.scoreB) ?_
    exact updateById_congr _ _ _ _ (aggFun_scoreA m.scoreA) h

theorem matchesFold_congr (ms : List Match) (ps1 ps2 : List Player)
    (h : aggProj ps1 = aggProj ps2) :
    aggProj (ms.foldl (fun ps m => if m.result = "" then ps else applyMatch ps m) ps1)
      = aggProj (ms.foldl (fun ps m => if m.result = "" then ps else applyMatch ps m) ps2) := by
  induction ms generalizing ps1 ps2 with
  | nil => exact h
  | cons m ms ih =>
    rw [List.foldl_cons, List.foldl_cons]
    by_cases hr : m.result = ""
    · rw [if_pos hr, if_pos hr]
      exact ih _ _ h
    · rw [if_neg hr, if_neg hr]
      exact ih _ _ (applyMatch_congr ps1 ps2 m h)

theorem recomputePlayers_congr (ps1 ps2 : List Player) (R : List Round) (c : Nat)
    (h : ps1.map (fun p => p.id) = ps2.map (fun p => p.id)) :
    aggProj (recomputePlayers ps1 R c) = aggProj (recomputePlayers ps2 R c) := by
  unfold recomputePlayers
  have hbase : aggProj (ps1.map resetAggregates) = aggProj (ps2.map resetAggregates) := by
    have e1 : ∀ ps : List Player, aggProj (ps.map resetAggregates)
        = (ps.map (fun p => p.id)).map (fun i => (i, (0 : Rat), ([] : List String),
            ([] : List Char), false)) := by
      intro ps
      unfold aggProj
      rw [List.map_map, List.map_map]
      rfl
    rw [e1, e1, h]
  generalize hg1 : ps1.map resetAggregates = acc1 at hbase
  generalize hg2 : ps2.map resetAggregates = acc2 at hbase
  clear hg1 hg2 h
  induction R generalizing acc1 acc2 with
  | nil => exact hbase
  | cons r rs ih =>
    rw [List.foldl_cons, List.foldl_cons]
    by_cases hr : c < r.roundNumber
    · rw [if_pos hr, if_pos hr]
      exact ih _ _ hbase
    · rw [if_neg hr, if_neg hr]
      exact ih _ _ (matchesFold_congr r.Matches acc1 acc2 hbase)

theorem updateById_ids (ps : List Player) (i : String) (f : Player → Player)
    (hf : ∀ p, (f p).id = p.id) :
    (updateById ps i f).map (fun p => p.id) = ps.map (fun p => p.id) := by
  induction ps with
  | nil => rfl
  | cons p ps ih =>
    unfold updateById
    by_cases h1 : ps.any (fun q => q.id = i) = true
    · rw [if_pos h1]
      simp [ih]
    · rw [if_neg h1]
      by_cases h2 : p.id = i
      · rw [if_pos h2]
        simp [hf]
      · rw [if_neg h2]

theorem applyMatch_ids (ps : List Player) (m : Match) :
    (applyMatch ps m).map (fun p => p.id) = ps.map (fun p => p.id) := by
  have hco : ∀ (oid : String) (a : Player), (colorMark m (ensureOpponent a oid)).id = a.id := by
    intro oid a
    rw [ensureOpponent_eq, colorMark_eq]
  unfold applyMatch
  by_cases hb : m.playerB_ID = ByePlayerID
  · simp only [if_pos hb]
    exact (updateById_ids _ m.playerA_ID (fun a => { a with hasBye := true })
        (fun p => rfl)).trans
      (updateById_ids ps m.playerA_ID (fun a => { a with score := a.score + m.scoreA })
        (fun p => rfl))
  · simp only [if_neg hb]
    exact (updateById_ids _ m.playerB_ID
        (fun b => colorMark m (ensureOpponent b m.playerA_ID))
        (fun b => hco m.playerA_ID b)).trans
      ((updateById_ids _ m.playerA_ID
          (fun a => colorMark m (ensureOpponent a m.playerB_ID))
          (fun a => hco m.playerB_ID a)).trans
        ((updateById_ids _ m.playerB_ID (fun b => { b with score := b.score + m.scoreB })
            (fun p => rfl)).trans
          (updateById_ids ps m.playerA_ID (fun a => { a with score := a.score + m.scoreA })
            (fun p => rfl))))

theorem recomputePlayers_ids (ps : List Player) (R : List Round) (c : Nat) :
    (recomputePlayers ps R c).map (fun p => p.id) = ps.map (fun p => p.id) := by
  unfold recomputePlayers
  have hbase : (ps.map resetAggregates).map (fun p => p.id) = ps.map (fun p => p.id) := by
    rw [List.map_map]
    rfl
  have hfold : ∀ (ms : List Match) (acc : List Player),
      ((ms.foldl (fun ps2 m => if m.result = "" then ps2 else applyMatch ps2 m) acc).map
          (fun p => p.id))
        = acc.map (fun p => p.id) := by
    intro ms
    induction ms with
    | nil => intro acc; rfl
    | cons m ms ih =>
      intro acc
      rw [List.foldl_cons]
      by_cases hr : m.result = ""
      · rw [if_pos hr, ih]
      · rw [if_neg hr, ih, applyMatch_ids]
  have hrounds : ∀ (rs : List Round) (acc : List Player),
      ((rs.foldl (fun ps r => if c < r.roundNumber then ps
          else r.Matches.foldl (fun ps2 m => if m.result = "" then ps2 else applyMatch ps2 m) ps)
          acc).map (fun p => p.id))
        = acc.map (fun p => p.id) := by
    intro rs
    induction rs with
    | nil => intro acc; rfl
    | cons r rs ih =>
      intro acc
      rw [List.foldl_cons]
      by_cases hr : c < r.roundNumber
      · rw [if_pos hr, ih]
      · rw [if_neg hr, ih, hfold]
  rw [hrounds, hbase]

theorem updateStandings_ids (t : Tournament) :
    (updateStandings t).players.map (fun p => p.id) = t.players.map (fun p => p.id) := by
  unfold updateStandings
  rw [List.map_map]
  rfl

theorem round_ext (x y : Round) (h1 : x.roundNumber = y.roundNumber)
    (h2 : x.Matches = y.Matches) (h3 : x.isComplete = y.isComplete) : x = y := by
  cases x
  cases y
  simp only at h1 h2 h3
  rw [h1, h2, h3]

theorem updMatchFirst_cons_pos (m : Match) (ms : List Match) (tbl : Nat) (f : Match → Match)
    (h : m.tableNumber = tbl) : updMatchFirst (m :: ms) tbl f = f m :: ms := by
  simp only [updMatchFirst]
  rw [if_pos h]

theorem updMatchFirst_cons_neg (m : Match) (ms : List Match) (tbl : Nat) (f : Match → Match)
    (h : ¬ m.tableNumber = tbl) :
    updMatchFirst (m :: ms) tbl f = m :: updMatchFirst ms tbl f := by
  simp only [updMatchFirst]
  rw [if_neg h]

theorem updMatchFirst_comp (ms : List Match) (tbl : Nat) (f g : Match → Match)
    (hf : ∀ m, (f m).tableNumber = m.tableNumber) :
    updMatchFirst (updMatchFirst ms tbl f) tbl g = updMatchFirst ms tbl (fun m => g (f m)) := by
  induction ms with
  | nil => rfl
  | cons m ms ih =>
    by_cases hm : m.tableNumber = tbl
    · rw [updMatchFirst_cons_pos m ms tbl f hm,
        updMatchFirst_cons_pos (f m) ms tbl g ((hf m).trans hm),
        updMatchFirst_cons_pos m ms tbl _ hm]
    · rw [updMatchFirst_cons_neg m ms tbl f hm,
        updMatchFirst_cons_neg m _ tbl g hm,
        updMatchFirst_cons_neg m ms tbl _ hm, ih]

theorem setMatch_cons_pos (r : Round) (rs : List Round) (rn tbl : Nat) (f : Match → Match)
    (h : roundHasMatch r rn tbl = true) :
    setMatch (r :: rs) rn tbl f = updRound r tbl f :: rs := by
  simp only [setMatch]
  rw [if_pos h]

theorem setMatch_cons_neg (r : Round) (rs : List Round) (rn tbl : Nat) (f : Match → Match)
    (h : roundHasMatch r rn tbl = false) :
    setMatch (r :: rs) rn tbl f = r :: setMatch rs rn tbl f := by
  simp only [setMatch]
  rw [if_neg (by simp [h])]

theorem setMatch_comp (R : List Round) (rn tbl : Nat) (f g : Match → Match)
    (hf : ∀ m, (f m).tableNumber = m.tableNumber) :
    setMatch (setMatch R rn tbl f) rn tbl g = setMatch R rn tbl (fun m => g (f m)) := by
  induction R with
  | nil => rfl
  | cons r rs ih =>
    by_cases hr : roundHasMatch r rn tbl = true
    · have hr2 : roundHasMatch (updRound r tbl f) rn tbl = true := by
        unfold updRound
        exact (roundHasMatch_setRound r _ _ rn tbl (updMatchFirst_tables r.Matches tbl f hf)).trans
          hr
      rw [setMatch_cons_pos r rs rn tbl f hr,
        setMatch_cons_pos _ rs rn tbl g hr2,
        setMatch_cons_pos r rs rn tbl _ hr]
      refine congrArg (fun x => x :: rs) ?_
      refine round_ext _ _ rfl ?_ ?_
      · show updMatchFirst (updMatchFirst r.Matches tbl f) tbl g = _
        rw [updMatchFirst_comp r.Matches tbl f g hf]
        unfold updRound
        rfl
      · show ((updMatchFirst (updMatchFirst r.Matches tbl f) tbl g).all _) = _
        rw [updMatchFirst_comp r.Matches tbl f g hf]
        unfold updRound
        rfl
    · have hrf : roundHasMatch r rn tbl = false := by simpa using hr
      rw [setMatch_cons_neg r rs rn tbl f hrf,
        setMatch_cons_neg r _ rn tbl g hrf,
        setMatch_cons_neg r rs rn tbl _ hrf, ih]

theorem updMatchFirst_id (ms : List Match) (tbl : Nat) (h : Match → Match)
    (hid : ∀ m, ms.find? (fun x => x.tableNumber = tbl) = some m → h m = m) :
    updMatchFirst ms tbl h = ms := by
  induction ms with
  | nil => rfl
  | cons m ms ih =>
    by_cases hm : m.tableNumber = tbl
    · rw [updMatchFirst_cons_pos m ms tbl h hm,
        hid m (find?_cons_pos (fun x => decide (x.tableNumber = tbl)) m ms (by simp [hm]))]
    · rw [updMatchFirst_cons_neg m ms tbl h hm, ih]
      intro m2 hm2
      refine hid m2 ?_
      rw [find?_cons_neg (fun x => decide (x.tableNumber = tbl)) m ms (by simp [hm])]
      exact hm2

theorem setMatch_id (R : List Round) (rn tbl : Nat) (h : Match → Match)
    (hid : ∀ r0, R.find? (fun r => roundHasMatch r rn tbl) = some r0 →
      updMatchFirst r0.Matches tbl h = r0.Matches ∧
      (r0.Matches.all (fun m => m.result ≠ "")) = r0.isComplete) :
    setMatch R rn tbl h = R := by
  induction R with
  | nil => rfl
  | cons r rs ih =>
    by_cases hr : roundHasMatch r rn tbl = true
    · obtain ⟨e1, e2⟩ := hid r (find?_cons_pos (fun x => roundHasMatch x rn tbl) r rs hr)
      rw [setMatch_cons_pos r rs rn tbl h hr]
      refine congrArg (fun x => x :: rs) ?_
      refine round_ext _ _ rfl ?_ ?_
      · exact e1
      · show ((updMatchFirst r.Matches tbl h).all _) = _
        rw [e1]
        exact e2
    · have hrf : roundHasMatch r rn tbl = false := by simpa using hr
      rw [setMatch_cons_neg r rs rn tbl h hrf, ih]
      intro r2 hr2
      refine hid r2 ?_
      rw [find?_cons_neg (fun x => roundHasMatch x rn tbl) r rs hrf]
      exact hr2

theorem recordApply_players_agg (t : Tournament) (rn tbl : Nat) (res : String) :
    aggProj (recordApply t rn tbl res).players
      = aggProj (recomputePlayers t.players
          (setMatch t.rounds rn tbl (writeResult res (effByeScore t res))) t.currentRound) := by
  unfold recordApply
  by_cases h : res = "BYE_A" ∧ t.byeScore = 0
  · simp only [if_pos h]
    rw [aggProj_updateStandings]
    rw [show effByeScore t res = 1 from by unfold effByeScore; rw [if_pos h]]
    rfl
  · simp only [if_neg h]
    rw [aggProj_updateStandings]
    rw [show effByeScore t res = t.byeScore from by unfold effByeScore; rw [if_neg h]]
    rfl

/-- C4: clearing a recorded result and re-recording the identical result
code restores every competitor's aggregate fields (score, opponent-id
list, colour history, bye flag) to exactly their values before the
clear.  The hypotheses say that the targeted match carries a recorded
result with the canonical scores `RecordMatchResult` writes for it, that
the round flag is consistent, and that the player aggregates are those
derived from the round history — all of which hold after any mutating
operation, since each one ends by recomputing aggregates from rounds. -/
theorem C4_clear_then_rerecord (t : Tournament) (rn tbl : Nat) (res : String)
    (r0 : Round) (m0 : Match)
    (hfr : t.rounds.find? (fun r => roundHasMatch r rn tbl) = some r0)
    (hm : r0.Matches.find? (fun m => m.tableNumber = tbl) = some m0)
    (hres : m0.result = res)
    (hcode : res = "A_WIN" ∨ res = "B_WIN" ∨ res = "DRAW" ∨ res = "BYE_A")
    (hbyeOK : res = "BYE_A" → m0.playerB_ID = ByePlayerID)
    (hsA : m0.scoreA = (if res = "A_WIN" then 1 else if res = "B_WIN" then 0
      else if res = "DRAW" then mkRat 1 2 else effByeScore t res))
    (hsB : m0.scoreB = (if res = "A_WIN" then 0 else if res = "B_WIN" then 1
      else if res = "DRAW" then mkRat 1 2 else 0))
    (hflag : (r0.Matches.all (fun m => m.result ≠ "")) = r0.isComplete)
    (hcons : aggProj t.players = aggProj (recomputePlayers t.players t.rounds t.currentRound)) :
    ∃ t1 t2, clearMatchResult t rn tbl = .ok t1 ∧
      recordMatchResult t1 rn tbl res = .ok t2 ∧
      aggProj t2.players = aggProj t.players := by
  have hloc : locateMatch t.rounds rn tbl = some m0 := by
    unfold locateMatch
    rw [hfr, Option.some_bind]
    exact hm
  set Rc : List Round :=
    setMatch t.rounds rn tbl (fun m => { m with result := "", scoreA := 0, scoreB := 0 })
    with hRc
  set t1 : Tournament :=
    updateStandings (recomputePlayersFromRounds { t with rounds := Rc }) with ht1
  have hclear : clearMatchResult t rn tbl = .ok t1 := by
    unfold clearMatchResult
    rw [hloc]
  have hloc1 : locateMatch t1.rounds rn tbl
      = some { m0 with result := "", scoreA := 0, scoreB := 0 } :=
    locateMatch_setMatch t.rounds rn tbl
      (fun m => { m with result := "", scoreA := 0, scoreB := 0 }) (fun m => rfl) m0 hloc
  have hrec : recordMatchResult t1 rn tbl res = .ok (recordApply t1 rn tbl res) := by
    unfold recordMatchResult
    rw [hloc1]
    dsimp only
    rw [if_neg ?hinv, if_pos hcode]
    case hinv =>
      rintro ⟨hY, hne⟩
      refine hne ?_
      show m0.playerB_ID = ByePlayerID
      exact hbyeOK hY
  have hgf : writeResult res (effByeScore t res)
      { m0 with result := "", scoreA := 0, scoreB := 0 } = m0 := by
    rcases hcode with hA | hB | hD | hY
    · subst hA
      simp only [if_pos rfl] at hsA hsB
      cases m0
      simp only at hres hsA hsB
      simp [writeResult, hres, hsA, hsB]
    · subst hB
      rw [if_neg (by decide), if_pos rfl] at hsA
      rw [if_neg (by decide), if_pos rfl] at hsB
      cases m0
      simp only at hres hsA hsB
      simp [writeResult, hres, hsA, hsB]
    · subst hD
      rw [if_neg (by decide), if_neg (by decide), if_pos rfl] at hsA
      rw [if_neg (by decide), if_neg (by decide), if_pos rfl] at hsB
      cases m0
      simp only at hres hsA hsB
      simp [writeResult, hres, hsA, hsB]
    · subst hY
      rw [if_neg (by decide), if_neg (by decide), if_neg (by decide)] at hsA
      rw [if_neg (by decide), if_neg (by decide), if_neg (by decide)] at hsB
      cases m0
      simp only at hres hsA hsB
      simp [writeResult, hres, hsA, hsB]
  have hcomp : setMatch Rc rn tbl (writeResult res (effByeScore t res)) = t.rounds := by
    rw [hRc, setMatch_comp t.rounds rn tbl
      (fun m => { m with result := "", scoreA := 0, scoreB := 0 })
      (writeResult res (effByeScore t res)) (fun m => rfl)]
    refine setMatch_id t.rounds rn tbl _ ?_
    intro rr hrr
    rw [hfr, Option.some.injEq] at hrr
    subst hrr
    constructor
    · refine updMatchFirst_id r0.Matches tbl _ ?_
      intro mm hmm
      rw [hm, Option.some.injEq] at hmm
      subst hmm
      exact hgf
    · exact hflag
  have hids1 : t1.players.map (fun p => p.id) = t.players.map (fun p => p.id) := by
    rw [ht1, updateStandings_ids]
    show ((recomputePlayers t.players Rc t.currentRound).map _) = _
    rw [recomputePlayers_ids]
  have hplayers : aggProj (recordApply t1 rn tbl res).players = aggProj t.players := by
    rw [recordApply_players_agg t1 rn tbl res]
    have e2 : setMatch t1.rounds rn tbl (writeResult res (effByeScore t1 res)) = t.rounds :=
      hcomp
    rw [e2]
    exact (recomputePlayers_congr t1.players t.players t.rounds t.currentRound hids1).trans
      hcons.symm
  exact ⟨t1, recordApply t1 rn tbl res, hclear, hrec, hplayers⟩

theorem C4_clear_then_rerecord_witness :
    ∃ t1 t2, clearMatchResult exT5 1 1 = .ok t1 ∧
      recordMatchResult t1 1 1 "A_WIN" = .ok t2 ∧
      aggProj t2.players = aggProj exT5.players :=
  C4_clear_then_rerecord exT5 1 1 "A_WIN" exRound1
    { roundNumber := 1, tableNumber := 1, playerA_ID := "p1", playerB_ID := "p2",
      whiteID := "p1", blackID := "p2", result := "A_WIN", scoreA := 1, scoreB := 0 }
    (by with_unfolding_all decide) (by with_unfolding_all decide) (by decide)
    (by decide) (by decide) (by with_unfolding_all decide) (by with_unfolding_all decide)
    (by with_unfolding_all decide) (by with_unfolding_all decide)

end Swiss
